import Mathlib

/-!
# The CSS selector builder of `src/05-objects-tasks.js`

A shallow embedding of `MyClass` and of the `cssSelectorBuilder` facade, followed by
the properties of the builder that have been settled against it.

Conventions of the embedding.

* A JavaScript string is a list of characters (`Str`). The code inspects strings only
  through `el[0]`, `el[1]`, concatenation and `join('')`; `el[i]` is `undefined` past the
  end of the string, which is `none` here. JavaScript indexes a string by UTF-16 code unit;
  a `Char` stands for one code unit, which is exact for text of the Basic Multilingual
  Plane.
* A method call either returns `this` or throws. Mutations of `this.ar` made before a
  `throw` persist, so every call yields an `Outcome`: the receiver after the call together
  with the error thrown, if any.
* `MyClass` also stores the constructor argument in `this.value`; nothing ever reads that
  field, so it is not part of the state.
* `c.toUpperCase() !== c.toLowerCase()` depends on the Unicode case tables of the
  JavaScript engine. The tables are a parameter `cased : Char → Bool` of every definition
  that reaches `element`; `asciiCased` is their restriction to ASCII text.
-/

set_option autoImplicit false

/-- A JavaScript string. -/
abbrev Str := List Char

/-- The errors a call can raise. -/
inductive Err where
  /-- The value `doubleEr`: `new Error('Element, id and pseudo-element should not occur more
  then one time inside the selector')`. -/
  | doubleEr
  /-- The value `orderEr`: `new Error('Selector parts should be arranged in the following
  order: element, id, class, attribute, pseudo-class, pseudo-element')`. -/
  | orderEr
  /-- The `TypeError` the engine raises for `undefined.toUpperCase()`. -/
  | typeError
  /-- The value `new Error()`, without a message. -/
  | bareError
  deriving DecidableEq, Repr

/-- An instance of `MyClass`: the array `this.ar`. -/
structure MyClass where
  ar : List Str
  deriving DecidableEq, Repr

/-- What a method call leaves behind: the receiver after the call, and the error thrown
(`none` when the call returned `this`). -/
structure Outcome where
  self : MyClass
  thrown : Option Err
  deriving DecidableEq, Repr

/-- The state `new MyClass(v)` starts from: `this.ar = []`. -/
def MyClass.new : MyClass := ⟨[]⟩

/-- Truthiness of the result of `Array.prototype.find` on an array of strings:
`undefined` and the empty string are falsy. -/
def truthy (found : Option Str) : Bool :=
  match found with
  | none => false
  | some el => !el.isEmpty

/-- How a template literal renders `el[i]`: the character itself, or the text `undefined`. -/
def template (c : Option Char) : Str :=
  match c with
  | some ch => [ch]
  | none => "undefined".toList

/-- The callback `(el) => el[0].toUpperCase() !== el[0].toLowerCase()`; it raises a
`TypeError` when `el[0]` is `undefined`. -/
def casedCallback (cased : Char → Bool) (el : Str) : Except Err Bool :=
  match el.head? with
  | none => .error .typeError
  | some c => .ok (cased c)

/-- The call `this.ar.filter((el) => el[0].toUpperCase() !== el[0].toLowerCase())`: the
callback runs on the entries in order and the first exception aborts the call. -/
def filterCased (cased : Char → Bool) : List Str → Except Err (List Str)
  | [] => .ok []
  | el :: rest =>
    match casedCallback cased el with
    | .error e => .error e
    | .ok keep =>
      match filterCased cased rest with
      | .error e => .error e
      | .ok kept => .ok (if keep then el :: kept else kept)

/-- The call `ar.join('')` on an array of strings: their concatenation. -/
def join (ar : List Str) : Str := ar.flatten

/-- The restriction of `c.toUpperCase() !== c.toLowerCase()` to ASCII: exactly the letters
`a`–`z` and `A`–`Z` change under one of the two conversions. -/
def asciiCased (c : Char) : Bool := c.isAlpha

namespace MyClass

/-- The method `element(arg)`. -/
def element (cased : Char → Bool) (self : MyClass) (arg : Str) : Outcome :=
  -- try {
  let ar := self.ar ++ [arg]                                   -- this.ar.push(arg)
  let tried : Except Err Unit :=
    match filterCased cased ar with
    | .error e => .error e
    | .ok kept =>
      if kept.length > 1 then .error .doubleEr                 -- throw doubleEr
      else if ar.length > 1 then .error .orderEr               -- throw orderEr
      else .ok ()                                              -- return this
  match tried with
  | .ok () => ⟨⟨ar⟩, none⟩
  | .error error =>                                            -- } catch (error) {
    match filterCased cased ar with
    | .error e => ⟨⟨ar⟩, some e⟩
    | .ok kept =>
      if kept.length > 1 then ⟨⟨ar⟩, some error⟩               -- throw error
      else if ar.length > 1 then ⟨⟨ar⟩, some .orderEr⟩         -- throw orderEr
      else ⟨⟨ar⟩, none⟩                                        -- } return this

/-- The method `id(arg)`. Every `throw` of the `try` block precedes the push, so the `catch`
block runs its three tests on the same array. -/
def id (self : MyClass) (arg : Str) : Outcome :=
  let hasId := truthy (self.ar.find? fun el => el.head? == some '#')
  let hasClass := truthy (self.ar.find? fun el => el.head? == some '.')
  let hasPseudoElement :=
    truthy (self.ar.find? fun el => el.head? == some ':' && el[1]? == some ':')
  -- try {
  let tried : Except Err (List Str) :=
    if hasId then .error .doubleEr
    else if hasClass then .error .orderEr
    else if hasPseudoElement then .error .orderEr
    else .ok (self.ar ++ ['#' :: arg])                         -- this.ar.push(`#${arg}`)
  match tried with
  | .ok ar => ⟨⟨ar⟩, none⟩                                     -- return this
  | .error _ =>                                                -- } catch (error) {
    if hasId then ⟨self, some .doubleEr⟩
    else if hasClass then ⟨self, some .orderEr⟩
    else if hasPseudoElement then ⟨self, some .orderEr⟩
    else ⟨self, none⟩                                          -- } return this

/-- The method `class(arg)`. -/
def «class» (self : MyClass) (arg : Str) : Outcome :=
  -- try {
  let tried : Except Err (List Str) :=
    if truthy (self.ar.find? fun el => template el.head? == ['[']) then .error .orderEr
    else .ok (self.ar ++ ['.' :: arg])                         -- this.ar.push(`.${arg}`)
  match tried with
  | .ok ar => ⟨⟨ar⟩, none⟩                                     -- return this
  | .error _ => ⟨self, some .orderEr⟩                          -- catch (er) { throw orderEr }

/-- The method `attr(arg)`. The `throw` of the `try` block precedes the push, so the `catch`
block runs its test on the same array. -/
def attr (self : MyClass) (arg : Str) : Outcome :=
  let hasPseudo := truthy (self.ar.find? fun el => el.head? == some ':')
  -- try {
  let tried : Except Err (List Str) :=
    if hasPseudo then .error .orderEr
    else .ok (self.ar ++ ['[' :: (arg ++ [']'])])              -- this.ar.push(`[${arg}]`)
  match tried with
  | .ok ar => ⟨⟨ar⟩, none⟩                                     -- return this
  | .error _ =>                                                -- } catch (er) {
    if hasPseudo then ⟨self, some .orderEr⟩
    else ⟨self, none⟩                                          -- } return this

/-- The method `pseudoClass(arg)`. -/
def pseudoClass (self : MyClass) (arg : Str) : Outcome :=
  -- try {
  let tried : Except Err (List Str) :=
    if truthy (self.ar.find? fun el => el.head? == some ':' && el[1]? == some ':') then
      .error .orderEr
    else .ok (self.ar ++ [':' :: arg])                         -- this.ar.push(`:${arg}`)
  match tried with
  | .ok ar => ⟨⟨ar⟩, none⟩                                     -- return this
  | .error _ => ⟨self, some .orderEr⟩                          -- catch (er) { throw orderEr }

/-- The method `pseudoElement(arg)`. -/
def pseudoElement (self : MyClass) (arg : Str) : Outcome :=
  -- try {
  let tried : Except Err (List Str) :=
    if truthy (self.ar.find? fun el => template el.head? ++ template el[1]? == [':', ':']) then
      .error .bareError                                        -- throw new Error()
    else .ok (self.ar ++ [':' :: ':' :: arg])                  -- this.ar.push(`::${arg}`)
  match tried with
  | .ok ar => ⟨⟨ar⟩, none⟩                                     -- return this
  | .error _ => ⟨self, some .doubleEr⟩                         -- catch (e) { throw new Error(..) }

/-- The method `stringify()`: `this.ar.join('')`. -/
def stringify (self : MyClass) : Str := join self.ar

end MyClass

/-- An argument of `combine`: a builder (`typeof el === 'object'`) or a string. -/
inductive Arg where
  | object (el : MyClass)
  | string (el : Str)
  deriving DecidableEq, Repr

/-- One step of the `map` callback of `combine`, on the running value of `localAR`. -/
def combineStep (localAR : Str) (el : Arg) : Str :=
  match el with
  | .object o => localAR ++ join o.ar                          -- localAR += el.ar.join('')
  | .string s => localAR ++ (' ' :: (s ++ [' ']))              -- localAR += ` ${el} `

/-- The method `combine(v)`. It cannot throw on builders and strings. -/
def MyClass.combine (self : MyClass) (v : List Arg) : MyClass :=
  let localAR := v.foldl combineStep []
  ⟨self.ar ++ [localAR]⟩                                       -- this.ar.push(localAR)

namespace cssSelectorBuilder

/-- The facade `element(v)`: `new MyClass(v).element(v)`. -/
def element (cased : Char → Bool) (v : Str) : Outcome := MyClass.new.element cased v

/-- The facade `id(v)`: `new MyClass(v).id(v)`. -/
def id (v : Str) : Outcome := MyClass.new.id v

/-- The facade `class(v)`: `new MyClass(v).class(v)`. -/
def «class» (v : Str) : Outcome := MyClass.new.class v

/-- The facade `attr(v)`: `new MyClass(v).attr(v)`. -/
def attr (v : Str) : Outcome := MyClass.new.attr v

/-- The facade `pseudoClass(v)`: `new MyClass(v).pseudoClass(v)`. -/
def pseudoClass (v : Str) : Outcome := MyClass.new.pseudoClass v

/-- The facade `pseudoElement(v)`: `new MyClass(v).pseudoElement(v)`. -/
def pseudoElement (v : Str) : Outcome := MyClass.new.pseudoElement v

/-- The facade `combine(...v)`: `new MyClass(v).combine(v)`. -/
def combine (v : List Arg) : MyClass := MyClass.new.combine v

end cssSelectorBuilder

/-! ## Calls as data

Chains of calls such as `builder.id('main').class('container')` are lists of pairs of a
fragment kind and an argument. -/

/-- The six kinds of fragment, one per fragment-adding method. -/
inductive Kind where
  | Element | Id | Class | Attribute | PseudoClass | PseudoElement
  deriving DecidableEq, Repr

/-- The position of a kind in the order `element, id, class, attribute, pseudo-class,
pseudo-element`. -/
def Kind.rank : Kind → Nat
  | .Element => 1
  | .Id => 2
  | .Class => 3
  | .Attribute => 4
  | .PseudoClass => 5
  | .PseudoElement => 6

/-- The rendered form of a fragment, as the specification words it: element → name,
id → `#` + name, class → `.` + name, attribute → `[` + spec + `]`, pseudo-class → `:` + name,
pseudo-element → `::` + name. -/
def render : Kind → Str → Str
  | .Element, name => name
  | .Id, name => "#".toList ++ name
  | .Class, name => ".".toList ++ name
  | .Attribute, name => "[".toList ++ name ++ "]".toList
  | .PseudoClass, name => ":".toList ++ name
  | .PseudoElement, name => "::".toList ++ name

/-- The fragment-adding method of a kind, called on `self`. -/
def MyClass.call (cased : Char → Bool) (self : MyClass) (k : Kind) (arg : Str) : Outcome :=
  match k with
  | .Element => self.element cased arg
  | .Id => self.id arg
  | .Class => self.class arg
  | .Attribute => self.attr arg
  | .PseudoClass => self.pseudoClass arg
  | .PseudoElement => self.pseudoElement arg

/-- Method chaining `self.k₁(a₁).k₂(a₂)…`: every call runs on the object the previous one
returned; an exception ends the chain. -/
def MyClass.chain (cased : Char → Bool) (self : MyClass) : List (Kind × Str) → Outcome
  | [] => ⟨self, none⟩
  | (k, arg) :: rest =>
    match self.call cased k arg with
    | ⟨next, none⟩ => next.chain cased rest
    | ⟨next, some e⟩ => ⟨next, some e⟩

/-- The facade method of a kind. -/
def cssSelectorBuilder.call (cased : Char → Bool) (k : Kind) (v : Str) : Outcome :=
  match k with
  | .Element => cssSelectorBuilder.element cased v
  | .Id => cssSelectorBuilder.id v
  | .Class => cssSelectorBuilder.class v
  | .Attribute => cssSelectorBuilder.attr v
  | .PseudoClass => cssSelectorBuilder.pseudoClass v
  | .PseudoElement => cssSelectorBuilder.pseudoElement v

/-- An expression `cssSelectorBuilder.k₀(a₀).k₁(a₁)…`: a facade call followed by a chain of
method calls. -/
def build (cased : Char → Bool) (first : Kind × Str) (rest : List (Kind × Str)) : Outcome :=
  match cssSelectorBuilder.call cased first.1 first.2 with
  | ⟨b, none⟩ => b.chain cased rest
  | ⟨b, some e⟩ => ⟨b, some e⟩

/-- A name is well formed when it is non-empty and starts with a letter. -/
def startsWithLetter (name : Str) : Bool :=
  match name with
  | [] => false
  | c :: _ => c.isAlpha

/-- The four characters the methods look for at the start of a stored string. -/
def isMarker (c : Char) : Bool := c == '#' || c == '.' || c == '[' || c == ':'

/-- A name is non-empty and starts with a character that is not a marker; names that start
with a letter are of this form. -/
def startsPlain (name : Str) : Bool :=
  match name with
  | [] => false
  | c :: _ => !isMarker c

/-- The names the methods cannot mistake for a fragment of another kind: plain names, and
arbitrary attribute specs. -/
def wellFormed (call : Kind × Str) : Bool :=
  call.1 == Kind.Attribute || startsPlain call.2

/-- The kinds that may occur at most once in a selector. -/
def Kind.once : Kind → Bool
  | .Element | .Id | .PseudoElement => true
  | _ => false

/-- The rendered form of a call. -/
def renderCall (call : Kind × Str) : Str := render call.1 call.2

/-! ## Arguments of `combine` -/

/-- The tail `token₁, operand₂, …, tokenₙ₋₁, operandₙ` of an interleaved argument list. -/
def interleavedTail : List (Str × MyClass) → List Arg
  | [] => []
  | (token, operand) :: rest => Arg.string token :: Arg.object operand :: interleavedTail rest

/-- The interleaved argument list `operand₁, token₁, operand₂, …, tokenₙ₋₁, operandₙ`. -/
def interleaved (first : MyClass) (rest : List (Str × MyClass)) : List Arg :=
  Arg.object first :: interleavedTail rest

/-- The text the specification asks of a combination: the serialised operands, joined by
each token padded with one space on each side. -/
def joinedByTokens (first : MyClass) (rest : List (Str × MyClass)) : Str :=
  first.stringify ++
    (rest.map fun p => " ".toList ++ p.1 ++ " ".toList ++ p.2.stringify).flatten

/-- The value of an expression that builds a selector: the builder, unless a call threw. -/
def Outcome.value (o : Outcome) : Except Err MyClass :=
  match o.thrown with
  | none => .ok o.self
  | some e => .error e

/-- The nested example of the documentation of `cssSelectorBuilder`, `stringify()` included.
Arguments are evaluated from left to right. -/
def documentedExample (cased : Char → Bool) : Except Err Str := do
  let div ← (build cased (Kind.Element, "div".toList)
    [(Kind.Id, "main".toList), (Kind.Class, "container".toList),
      (Kind.Class, "draggable".toList)]).value
  let table ← (build cased (Kind.Element, "table".toList) [(Kind.Id, "data".toList)]).value
  let tr ← (build cased (Kind.Element, "tr".toList)
    [(Kind.PseudoClass, "nth-of-type(even)".toList)]).value
  let td ← (build cased (Kind.Element, "td".toList)
    [(Kind.PseudoClass, "nth-of-type(even)".toList)]).value
  pure (cssSelectorBuilder.combine
    [Arg.object div, Arg.string "+".toList,
      Arg.object (cssSelectorBuilder.combine
        [Arg.object table, Arg.string "~".toList,
          Arg.object (cssSelectorBuilder.combine
            [Arg.object tr, Arg.string " ".toList, Arg.object td])])]).stringify

/-! ## Builders as objects

`combine` receives references to builders. To say what a call does to its operands, the
builders live in an object store and the operands are references into it. -/

/-- The object store: every builder allocated so far; a reference is a position in it. -/
abbrev Heap := List MyClass

/-- An argument of `combine`, with builders passed by reference. -/
inductive ArgRef where
  | object (ref : Nat)
  | string (el : Str)
  deriving DecidableEq, Repr

/-- One step of the `map` callback of `combine`, reading the operand through its reference.
A reference outside the store does not occur in a JavaScript program; it yields `none`. -/
def Heap.combineStep (h : Heap) (localAR : Option Str) (el : ArgRef) : Option Str :=
  match localAR, el with
  | none, _ => none
  | some acc, .object ref =>
    match h[ref]? with
    | none => none
    | some o => some (acc ++ join o.ar)                        -- localAR += el.ar.join('')
  | some acc, .string s => some (acc ++ (' ' :: (s ++ [' '])))  -- localAR += ` ${el} `

/-- The method `combine(v)`, called on the object at reference `this`: the only write is
`this.ar.push(localAR)`. -/
def Heap.combine (h : Heap) (this : Nat) (v : List ArgRef) : Option Heap :=
  match v.foldl h.combineStep (some []), h[this]? with
  | some localAR, some self => some (h.set this ⟨self.ar ++ [localAR]⟩)
  | _, _ => none

/-- The facade `combine(...v)`: `new MyClass(v)` allocates a builder, `combine(v)` runs on
it, and the reference to it is returned. -/
def Heap.cssCombine (h : Heap) (v : List ArgRef) : Option (Heap × Nat) :=
  let this := h.length
  match Heap.combine (h ++ [MyClass.new]) this v with
  | some h2 => some (h2, this)
  | none => none

/-- The builder or string an argument denotes in a store. -/
def Heap.resolve (h : Heap) (el : ArgRef) : Option Arg :=
  match el with
  | .object ref => (h[ref]?).map Arg.object
  | .string s => some (Arg.string s)

/-- The references among the arguments all point into the store. -/
def Heap.holds (h : Heap) (v : List ArgRef) : Bool :=
  v.all fun el =>
    match el with
    | .object ref => decide (ref < h.length)
    | .string _ => true

/-- The method `stringify()`, called on the object at reference `this`: it returns
`this.ar.join('')` and writes nothing. The result is the store after the call together with
the returned string. -/
def Heap.stringify (h : Heap) (this : Nat) : Option (Heap × Str) :=
  match h[this]? with
  | none => none
  | some self => some (h, join self.ar)

/-- The in-order concatenation of strings: each one appended in turn to what precedes. -/
def concatenation (parts : List Str) : Str :=
  parts.foldl (fun text part => text ++ part) []

/-! ## The `try` and `catch` blocks on their own

Each fragment-adding method is a `try` block followed by a `catch` block. To say what
happens to an error thrown inside a `try` block, the two blocks are given separately here:
`tryBlock` yields the array after the block and the error thrown in it, if any; `catchBlock`
yields the error the `catch` block throws, or `none` when it runs to its end, after which
`element`, `id` and `attr` reach their final `return this`. -/

/-- The `try` block of the method of kind `k`. -/
def MyClass.tryBlock (cased : Char → Bool) (self : MyClass) (k : Kind) (arg : Str) :
    List Str × Except Err Unit :=
  match k with
  | .Element =>
    let ar := self.ar ++ [arg]
    match filterCased cased ar with
    | .error e => (ar, .error e)
    | .ok kept =>
      if kept.length > 1 then (ar, .error .doubleEr)
      else if ar.length > 1 then (ar, .error .orderEr)
      else (ar, .ok ())
  | .Id =>
    if truthy (self.ar.find? fun el => el.head? == some '#') then (self.ar, .error .doubleEr)
    else if truthy (self.ar.find? fun el => el.head? == some '.') then
      (self.ar, .error .orderEr)
    else if truthy (self.ar.find? fun el => el.head? == some ':' && el[1]? == some ':') then
      (self.ar, .error .orderEr)
    else (self.ar ++ ['#' :: arg], .ok ())
  | .Class =>
    if truthy (self.ar.find? fun el => template el.head? == ['[']) then
      (self.ar, .error .orderEr)
    else (self.ar ++ ['.' :: arg], .ok ())
  | .Attribute =>
    if truthy (self.ar.find? fun el => el.head? == some ':') then (self.ar, .error .orderEr)
    else (self.ar ++ ['[' :: (arg ++ [']'])], .ok ())
  | .PseudoClass =>
    if truthy (self.ar.find? fun el => el.head? == some ':' && el[1]? == some ':') then
      (self.ar, .error .orderEr)
    else (self.ar ++ [':' :: arg], .ok ())
  | .PseudoElement =>
    if truthy (self.ar.find? fun el => template el.head? ++ template el[1]? == [':', ':']) then
      (self.ar, .error .bareError)
    else (self.ar ++ [':' :: ':' :: arg], .ok ())

/-- The `catch` block of the method of kind `k`, entered on the array `ar` with the caught
`error`. -/
def MyClass.catchBlock (cased : Char → Bool) (k : Kind) (ar : List Str) (error : Err) :
    Option Err :=
  match k with
  | .Element =>
    match filterCased cased ar with
    | .error e => some e
    | .ok kept =>
      if kept.length > 1 then some error                       -- throw error
      else if ar.length > 1 then some .orderEr                 -- throw orderEr
      else none
  | .Id =>
    if truthy (ar.find? fun el => el.head? == some '#') then some .doubleEr
    else if truthy (ar.find? fun el => el.head? == some '.') then some .orderEr
    else if truthy (ar.find? fun el => el.head? == some ':' && el[1]? == some ':') then
      some .orderEr
    else none
  | .Class => some .orderEr
  | .Attribute =>
    if truthy (ar.find? fun el => el.head? == some ':') then some .orderEr
    else none
  | .PseudoClass => some .orderEr
  | .PseudoElement => some .doubleEr

/-- A method as its two blocks in sequence: `try { … return this } catch (error) { … }
return this`. -/
def MyClass.tryCatch (cased : Char → Bool) (self : MyClass) (k : Kind) (arg : Str) : Outcome :=
  match self.tryBlock cased k arg with
  | (ar, .ok ()) => ⟨⟨ar⟩, none⟩
  | (ar, .error e) => ⟨⟨ar⟩, MyClass.catchBlock cased k ar e⟩

/-- The `catch` block swallows an error of the `try` block: the `try` block throws the
duplicate or the order error, the `catch` block runs to its end, and the call returns. -/
def MyClass.swallows (cased : Char → Bool) (self : MyClass) (k : Kind) (arg : Str) : Prop :=
  ∃ e, (self.tryBlock cased k arg).2 = .error e ∧ (e = Err.doubleEr ∨ e = Err.orderEr) ∧
    MyClass.catchBlock cased k (self.tryBlock cased k arg).1 e = none ∧
    (self.call cased k arg).thrown = none

/-! ## Validation read off the kinds

What the tests of each method amount to when every stored string is recognised as the
fragment it was pushed as: the error a call of kind `k` raises on a builder whose fragments
have the kinds `present`. -/

/-- The error raised by a call of kind `k` after calls of the kinds `present`. -/
def validate (present : List Kind) (k : Kind) : Option Err :=
  match k with
  | .Element =>
    if present.any (fun j => j = Kind.Element) then some .doubleEr
    else if present.length > 0 then some .orderEr
    else none
  | .Id =>
    if present.any (fun j => j = Kind.Id) then some .doubleEr
    else if present.any (fun j => j = Kind.Class) then some .orderEr
    else if present.any (fun j => j = Kind.PseudoElement) then some .orderEr
    else none
  | .Class =>
    if present.any (fun j => j = Kind.Attribute) then some .orderEr else none
  | .Attribute =>
    if present.any (fun j => j = Kind.PseudoClass ∨ j = Kind.PseudoElement) then some .orderEr
    else none
  | .PseudoClass =>
    if present.any (fun j => j = Kind.PseudoElement) then some .orderEr else none
  | .PseudoElement =>
    if present.any (fun j => j = Kind.PseudoElement) then some .doubleEr else none

/-- The error that ends a chain of calls of the kinds `calls` after calls of the kinds
`present`, if any. -/
def validateChain : List Kind → List Kind → Option Err
  | _, [] => none
  | present, k :: calls =>
    match validate present k with
    | none => validateChain (present ++ [k]) calls
    | some e => some e

/-! ## Tests the methods make on stored entries -/

/-- The value of `el[0].toUpperCase() !== el[0].toLowerCase()` on a non-empty entry. -/
def headCased (cased : Char → Bool) (el : Str) : Bool :=
  match el with
  | [] => false
  | c :: _ => cased c

/-- The test `el[0] === c`. -/
def startsWith (c : Char) (el : Str) : Bool := el.head? == some c

/-- The test `el[0] === ':' && el[1] === ':'`. -/
def startsColonColon (el : Str) : Bool := el.head? == some ':' && el[1]? == some ':'

/-- The names for which a stored fragment is recognised as the kind it was pushed as: an
element name starts with a cased character, and a pseudo-class name does not start with
`:`. The arguments of `id`, `class`, `attr` and `pseudoElement` are arbitrary. -/
def nameFits (cased : Char → Bool) (call : Kind × Str) : Bool :=
  match call.1 with
  | .Element => headCased cased call.2
  | .PseudoClass => !startsWith ':' call.2
  | _ => true

/-! ## What each method computes -/

theorem truthy_find?_of_nonempty (p : Str → Bool) (hp : ∀ el, p el = true → el ≠ [])
    (ar : List Str) : truthy (ar.find? p) = ar.any p := by
  induction ar with
  | nil => rfl
  | cons el rest ih =>
    by_cases h : p el = true
    · have hne := hp el h
      cases el with
      | nil => exact absurd rfl hne
      | cons c cs => simp [List.find?, h, truthy]
    · simp only [Bool.not_eq_true] at h
      simp [List.find?, h, ih]

theorem filterCased_eq (cased : Char → Bool) (ar : List Str) :
    filterCased cased ar =
      if ar.all (fun el => !el.isEmpty) then .ok (ar.filter (headCased cased))
      else .error .typeError := by
  induction ar with
  | nil => rfl
  | cons el rest ih =>
    cases el with
    | nil => simp [filterCased, casedCallback]
    | cons c cs =>
      by_cases h : rest.all (fun el => !el.isEmpty) = true
      · simp only [h, if_true] at ih
        cases hc : cased c <;>
          simp [filterCased, casedCallback, ih, h, List.filter, headCased, hc]
      · simp only [h] at ih
        simp [filterCased, casedCallback, ih, h]

theorem template_pair_eq (el : Str) :
    (template el.head? ++ template el[1]? == [':', ':']) = startsColonColon el := by
  rcases el with _ | ⟨a, _ | ⟨b, cs⟩⟩
  · decide
  · simp only [startsColonColon, template, List.head?, List.getElem?_cons_succ,
      List.getElem?_nil]
    have : ([a] ++ "undefined".toList == [':', ':']) = false := by
      simp [String.toList]
    simp [this]
  · simp [startsColonColon, template, Bool.beq_eq_decide_eq]

theorem template_head_eq (el : Str) :
    (template el.head? == ['[']) = startsWith '[' el := by
  rcases el with _ | ⟨a, cs⟩
  · decide
  · simp [startsWith, template, Bool.beq_eq_decide_eq]

theorem startsWith_ne_nil (c : Char) (el : Str) (h : startsWith c el = true) : el ≠ [] := by
  rintro rfl; simp [startsWith] at h

theorem startsColonColon_ne_nil (el : Str) (h : startsColonColon el = true) : el ≠ [] := by
  rintro rfl; simp [startsColonColon] at h

theorem element_normal (cased : Char → Bool) (self : MyClass) (arg : Str) :
    self.element cased arg =
      ⟨⟨self.ar ++ [arg]⟩,
        if (self.ar ++ [arg]).all (fun el => !el.isEmpty) then
          if ((self.ar ++ [arg]).filter (headCased cased)).length > 1 then some .doubleEr
          else if (self.ar ++ [arg]).length > 1 then some .orderEr
          else none
        else some .typeError⟩ := by
  unfold MyClass.element
  simp only [filterCased_eq]
  by_cases h1 : (self.ar ++ [arg]).all (fun el => !el.isEmpty) = true
  · simp only [h1, if_true]
    by_cases h2 : ((self.ar ++ [arg]).filter (headCased cased)).length > 1
    · simp only [h2, if_true]
    · simp only [h2, if_false]
      by_cases h3 : (self.ar ++ [arg]).length > 1
      · simp only [h3, if_true]
      · simp only [h3, if_false]
  · simp only [h1]
    rfl

theorem id_normal (self : MyClass) (arg : Str) :
    self.id arg =
      if self.ar.any (startsWith '#') then ⟨self, some .doubleEr⟩
      else if self.ar.any (startsWith '.') then ⟨self, some .orderEr⟩
      else if self.ar.any startsColonColon then ⟨self, some .orderEr⟩
      else ⟨⟨self.ar ++ ['#' :: arg]⟩, none⟩ := by
  unfold MyClass.id
  have e1 := truthy_find?_of_nonempty (startsWith '#') (startsWith_ne_nil '#') self.ar
  have e2 := truthy_find?_of_nonempty (startsWith '.') (startsWith_ne_nil '.') self.ar
  have e3 := truthy_find?_of_nonempty startsColonColon startsColonColon_ne_nil self.ar
  unfold startsWith at e1 e2
  unfold startsColonColon at e3
  simp only [e1, e2, e3]
  unfold startsWith startsColonColon
  split_ifs <;> rfl

theorem class_normal (self : MyClass) (arg : Str) :
    self.class arg =
      if self.ar.any (startsWith '[') then ⟨self, some .orderEr⟩
      else ⟨⟨self.ar ++ ['.' :: arg]⟩, none⟩ := by
  unfold MyClass.class
  have e1 := truthy_find?_of_nonempty (startsWith '[') (startsWith_ne_nil '[') self.ar
  simp only [template_head_eq]
  have e0 : (fun el => startsWith '[' el) = startsWith '[' := rfl
  simp only [e0, e1]
  split_ifs <;> rfl

theorem attr_normal (self : MyClass) (arg : Str) :
    self.attr arg =
      if self.ar.any (startsWith ':') then ⟨self, some .orderEr⟩
      else ⟨⟨self.ar ++ ['[' :: (arg ++ [']'])]⟩, none⟩ := by
  unfold MyClass.attr
  have e1 := truthy_find?_of_nonempty (startsWith ':') (startsWith_ne_nil ':') self.ar
  unfold startsWith at e1
  simp only [e1]
  unfold startsWith
  split_ifs <;> rfl

theorem pseudoClass_normal (self : MyClass) (arg : Str) :
    self.pseudoClass arg =
      if self.ar.any startsColonColon then ⟨self, some .orderEr⟩
      else ⟨⟨self.ar ++ [':' :: arg]⟩, none⟩ := by
  unfold MyClass.pseudoClass
  have e3 := truthy_find?_of_nonempty startsColonColon startsColonColon_ne_nil self.ar
  unfold startsColonColon at e3
  simp only [e3]
  unfold startsColonColon
  split_ifs <;> rfl

theorem pseudoElement_normal (self : MyClass) (arg : Str) :
    self.pseudoElement arg =
      if self.ar.any startsColonColon then ⟨self, some .doubleEr⟩
      else ⟨⟨self.ar ++ [':' :: ':' :: arg]⟩, none⟩ := by
  unfold MyClass.pseudoElement
  have e3 := truthy_find?_of_nonempty startsColonColon startsColonColon_ne_nil self.ar
  simp only [template_pair_eq]
  have e0 : (fun el => startsColonColon el) = startsColonColon := rfl
  simp only [e0, e3]
  split_ifs <;> rfl

/-! ## Well-formed names: the leading-character tests recognise the kinds -/

theorem isMarker_false (c : Char) (h : isMarker c = false) :
    c ≠ '#' ∧ c ≠ '.' ∧ c ≠ '[' ∧ c ≠ ':' := by
  refine ⟨?_, ?_, ?_, ?_⟩ <;> (rintro rfl; revert h; decide)

theorem isAlpha_not_marker (c : Char) (h : c.isAlpha = true) : isMarker c = false := by
  simp only [isMarker, Bool.or_eq_false_iff, beq_eq_false_iff_ne]
  refine ⟨⟨⟨?_, ?_⟩, ?_⟩, ?_⟩ <;> (rintro rfl; revert h; decide)

theorem startsWithLetter_startsPlain (name : Str) (h : startsWithLetter name = true) :
    startsPlain name = true := by
  cases name with
  | nil => exact h
  | cons c cs => simp [startsPlain, isAlpha_not_marker c h]

theorem startsWith_cons (c a : Char) (cs : Str) : startsWith c (a :: cs) = decide (a = c) := by
  simp [startsWith, Bool.beq_eq_decide_eq]

theorem startsColonColon_cons (a b : Char) (cs : Str) :
    startsColonColon (a :: b :: cs) = (decide (a = ':') && decide (b = ':')) := by
  simp [startsColonColon, Bool.beq_eq_decide_eq]

theorem startsColonColon_single (a : Char) : startsColonColon [a] = false := by
  simp [startsColonColon]

theorem renderCall_ne_nil (call : Kind × Str) (h : wellFormed call = true) :
    renderCall call ≠ [] := by
  obtain ⟨k, name⟩ := call
  cases k <;> cases name <;> simp_all [renderCall, render, wellFormed, startsPlain]

theorem startsWith_hash_render (call : Kind × Str) (h : wellFormed call = true) :
    startsWith '#' (renderCall call) = decide (call.1 = Kind.Id) := by
  obtain ⟨k, name⟩ := call
  cases k <;> rcases name with _ | ⟨c, cs⟩ <;>
    simp_all [renderCall, render, wellFormed, startsPlain, startsWith_cons]
  exact (isMarker_false c h).1

theorem startsWith_dot_render (call : Kind × Str) (h : wellFormed call = true) :
    startsWith '.' (renderCall call) = decide (call.1 = Kind.Class) := by
  obtain ⟨k, name⟩ := call
  cases k <;> rcases name with _ | ⟨c, cs⟩ <;>
    simp_all [renderCall, render, wellFormed, startsPlain, startsWith_cons]
  exact (isMarker_false c h).2.1

theorem startsWith_bracket_render (call : Kind × Str) (h : wellFormed call = true) :
    startsWith '[' (renderCall call) = decide (call.1 = Kind.Attribute) := by
  obtain ⟨k, name⟩ := call
  cases k <;> rcases name with _ | ⟨c, cs⟩ <;>
    simp_all [renderCall, render, wellFormed, startsPlain, startsWith_cons]
  exact (isMarker_false c h).2.2.1

theorem startsWith_colon_render (call : Kind × Str) (h : wellFormed call = true) :
    startsWith ':' (renderCall call) =
      decide (call.1 = Kind.PseudoClass ∨ call.1 = Kind.PseudoElement) := by
  obtain ⟨k, name⟩ := call
  cases k <;> rcases name with _ | ⟨c, cs⟩ <;>
    simp_all [renderCall, render, wellFormed, startsPlain, startsWith_cons]
  exact (isMarker_false c h).2.2.2

theorem startsColonColon_render (call : Kind × Str) (h : wellFormed call = true) :
    startsColonColon (renderCall call) = decide (call.1 = Kind.PseudoElement) := by
  obtain ⟨k, name⟩ := call
  cases k <;> rcases name with _ | ⟨c, _ | ⟨d, cs⟩⟩ <;>
    simp_all [renderCall, render, wellFormed, startsPlain, startsColonColon_cons,
      startsColonColon_single]
  all_goals first
    | exact (isMarker_false _ h).2.2.2
    | exact fun hc => absurd hc (isMarker_false _ h).2.2.2

theorem any_render (test : Str → Bool) (kinds : Kind → Bool) (pre : List (Kind × Str))
    (htest : ∀ p ∈ pre, test (renderCall p) = kinds p.1) :
    (pre.map renderCall).any test = pre.any (fun p => kinds p.1) := by
  induction pre with
  | nil => rfl
  | cons p rest ih =>
    have h1 := htest p (List.mem_cons_self _ _)
    have h2 := ih (fun q hq => htest q (List.mem_cons_of_mem _ hq))
    simp only [List.map_cons, List.any_cons, h1, h2]

theorem any_kind_false (kinds : Kind → Bool) (pre : List (Kind × Str))
    (h : ∀ p ∈ pre, kinds p.1 = false) : pre.any (fun p => kinds p.1) = false := by
  induction pre with
  | nil => rfl
  | cons p rest ih =>
    simp only [List.any_cons, h p (List.mem_cons_self _ _),
      ih (fun q hq => h q (List.mem_cons_of_mem _ hq)), Bool.or_self]

theorem rank_le_element (j : Kind) (h : j.rank ≤ Kind.Element.rank) : j = Kind.Element := by
  cases j <;> first | rfl | exact absurd h (by decide)

/-- One call in rank order, on a builder that holds the rendered forms of earlier calls in
rank order: the call returns and appends the rendered form of its fragment. -/
theorem call_in_order (cased : Char → Bool) (pre : List (Kind × Str)) (k : Kind) (arg : Str)
    (hwf : ∀ p ∈ pre, wellFormed p = true) (hwfc : wellFormed (k, arg) = true)
    (hrank : ∀ p ∈ pre, p.1.rank ≤ k.rank)
    (honce : k.once = true → ∀ p ∈ pre, p.1 ≠ k) :
    MyClass.call cased ⟨pre.map renderCall⟩ k arg =
      ⟨⟨pre.map renderCall ++ [renderCall (k, arg)]⟩, none⟩ := by
  have hash := any_render (startsWith '#') (fun k => decide (k = Kind.Id)) pre
    (fun p hp => startsWith_hash_render p (hwf p hp))
  have dot := any_render (startsWith '.') (fun k => decide (k = Kind.Class)) pre
    (fun p hp => startsWith_dot_render p (hwf p hp))
  have bracket := any_render (startsWith '[') (fun k => decide (k = Kind.Attribute)) pre
    (fun p hp => startsWith_bracket_render p (hwf p hp))
  have colon := any_render (startsWith ':')
    (fun k => decide (k = Kind.PseudoClass ∨ k = Kind.PseudoElement)) pre
    (fun p hp => startsWith_colon_render p (hwf p hp))
  have colon2 := any_render startsColonColon (fun k => decide (k = Kind.PseudoElement)) pre
    (fun p hp => startsColonColon_render p (hwf p hp))
  have low : ∀ (kinds : Kind → Bool), (∀ j, j.rank ≤ k.rank → (k.once = true → j ≠ k) →
      kinds j = false) → pre.any (fun p => kinds p.1) = false :=
    fun kinds h => any_kind_false kinds pre
      (fun p hp => h p.1 (hrank p hp) (fun ho => honce ho p hp))
  cases k with
  | Element =>
    have hnil : pre = [] := by
      cases pre with
      | nil => rfl
      | cons p rest =>
        exfalso
        have h1 := hrank p (List.mem_cons_self _ _)
        have h2 := honce rfl p (List.mem_cons_self _ _)
        exact h2 (rank_le_element p.1 h1)
    subst hnil
    rcases arg with _ | ⟨c, cs⟩
    · simp [wellFormed, startsPlain] at hwfc
    · simp only [MyClass.call, element_normal, renderCall, render]
      cases hc : headCased cased (c :: cs) <;> simp [List.filter, hc]
  | Id =>
    have f1 := low (fun k => decide (k = Kind.Id))
      (fun j h1 h2 => by
        clear hash dot bracket colon colon2 low hwf hwfc hrank honce
        cases j <;> simp_all [Kind.rank, Kind.once])
    have f2 := low (fun k => decide (k = Kind.Class))
      (fun j h1 h2 => by
        clear hash dot bracket colon colon2 low hwf hwfc hrank honce
        cases j <;> simp_all [Kind.rank, Kind.once])
    have f3 := low (fun k => decide (k = Kind.PseudoElement))
      (fun j h1 h2 => by
        clear hash dot bracket colon colon2 low hwf hwfc hrank honce
        cases j <;> simp_all [Kind.rank, Kind.once])
    simp only [MyClass.call, id_normal, hash, dot, colon2, f1, f2, f3]
    rfl
  | Class =>
    have f1 := low (fun k => decide (k = Kind.Attribute))
      (fun j h1 h2 => by
        clear hash dot bracket colon colon2 low hwf hwfc hrank honce
        cases j <;> simp_all [Kind.rank, Kind.once])
    simp only [MyClass.call, class_normal, bracket, f1]
    rfl
  | Attribute =>
    have f1 := low (fun k => decide (k = Kind.PseudoClass ∨ k = Kind.PseudoElement))
      (fun j h1 h2 => by
        clear hash dot bracket colon colon2 low hwf hwfc hrank honce
        cases j <;> simp_all [Kind.rank, Kind.once])
    simp only [MyClass.call, attr_normal, colon, f1]
    rfl
  | PseudoClass =>
    have f1 := low (fun k => decide (k = Kind.PseudoElement))
      (fun j h1 h2 => by
        clear hash dot bracket colon colon2 low hwf hwfc hrank honce
        cases j <;> simp_all [Kind.rank, Kind.once])
    simp only [MyClass.call, pseudoClass_normal, colon2, f1]
    rfl
  | PseudoElement =>
    have f1 := low (fun k => decide (k = Kind.PseudoElement))
      (fun j h1 h2 => by
        clear hash dot bracket colon colon2 low hwf hwfc hrank honce
        cases j <;> simp_all [Kind.rank, Kind.once])
    simp only [MyClass.call, pseudoElement_normal, colon2, f1]
    rfl

theorem build_eq_chain (cased : Char → Bool) (first : Kind × Str) (rest : List (Kind × Str)) :
    build cased first rest = MyClass.new.chain cased (first :: rest) := by
  obtain ⟨k, v⟩ := first
  cases k <;> rfl

theorem chain_in_order (cased : Char → Bool) (rest pre : List (Kind × Str))
    (hwf : ∀ p ∈ pre ++ rest, wellFormed p = true)
    (hrank : (pre ++ rest).Pairwise (fun a b => a.1.rank ≤ b.1.rank))
    (honce : ∀ k : Kind, k.once = true → (pre ++ rest).countP (fun p => p.1 = k) ≤ 1) :
    MyClass.chain cased ⟨pre.map renderCall⟩ rest =
      ⟨⟨(pre ++ rest).map renderCall⟩, none⟩ := by
  induction rest generalizing pre with
  | nil => simp [MyClass.chain]
  | cons c rest ih =>
    obtain ⟨k, arg⟩ := c
    have hstep := call_in_order cased pre k arg
      (fun p hp => hwf p (List.mem_append_left _ hp))
      (hwf (k, arg) (by simp))
      (fun p hp => (List.pairwise_append.1 hrank).2.2 p hp (k, arg) (List.mem_cons_self _ _))
      (fun hk p hp hpk => by
        have h1 := honce k hk
        rw [List.countP_append, List.countP_cons] at h1
        have h2 : 0 < pre.countP (fun p => decide (p.1 = k)) :=
          List.countP_pos_iff.2 ⟨p, hp, by simpa using hpk⟩
        simp at h1
        omega)
    have hih := ih (pre ++ [(k, arg)])
      (by simpa using hwf) (by simpa using hrank) (by simpa using honce)
    simp only [MyClass.chain, hstep]
    simpa using hih

/-- A facade call followed by a chain, all in rank order: nothing throws and the builder
holds the rendered calls. -/
theorem build_in_order (cased : Char → Bool) (first : Kind × Str) (rest : List (Kind × Str))
    (hwf : ∀ p ∈ first :: rest, wellFormed p = true)
    (hrank : (first :: rest).Pairwise (fun a b => a.1.rank ≤ b.1.rank))
    (honce : ∀ k : Kind, k.once = true → (first :: rest).countP (fun p => p.1 = k) ≤ 1) :
    build cased first rest = ⟨⟨(first :: rest).map renderCall⟩, none⟩ := by
  have h := chain_in_order cased (first :: rest) [] (by simpa using hwf)
    (by simpa using hrank) (by simpa using honce)
  rw [build_eq_chain]
  exact h

/-! ## Combination -/

theorem foldl_combineStep_interleavedTail (rest : List (Str × MyClass)) (acc : Str) :
    (interleavedTail rest).foldl combineStep acc =
      acc ++ (rest.map fun p => " ".toList ++ p.1 ++ " ".toList ++ p.2.stringify).flatten := by
  induction rest generalizing acc with
  | nil => simp [interleavedTail]
  | cons p rest ih =>
    obtain ⟨token, operand⟩ := p
    simp [interleavedTail, combineStep, ih, MyClass.stringify, join, List.append_assoc]

theorem stringify_combine (v : List Arg) :
    (cssSelectorBuilder.combine v).stringify = v.foldl combineStep [] := by
  simp [cssSelectorBuilder.combine, MyClass.combine, MyClass.new, MyClass.stringify, join]

/-! ## Calls that return -/

/-- A call that returns has appended the rendered form of its fragment; and when the kind is
one of element, id and pseudo-element, the builder held no fragment of that kind before. -/
theorem call_returns (cased : Char → Bool) (self : MyClass) (k : Kind) (arg : Str)
    (h : (self.call cased k arg).thrown = none) :
    (self.call cased k arg).self.ar = self.ar ++ [render k arg] ∧
      (k.once = true → ∀ name, render k name ∉ self.ar) := by
  cases k with
  | Element =>
    simp only [MyClass.call, element_normal] at h ⊢
    refine ⟨rfl, fun _ name hmem => ?_⟩
    have hlen : ¬ (self.ar ++ [arg]).length > 1 := by
      intro hgt
      split_ifs at h
    have hpos := List.length_pos_of_mem hmem
    simp only [List.length_append, List.length_cons, List.length_nil] at hlen
    omega
  | Id =>
    simp only [MyClass.call, id_normal] at h ⊢
    split_ifs at h ⊢ with h1 h2 h3
    refine ⟨rfl, fun _ name hmem => h1 (List.any_eq_true.2 ⟨_, hmem, ?_⟩)⟩
    simp [render, startsWith]
  | Class =>
    simp only [MyClass.call, class_normal] at h ⊢
    split_ifs at h ⊢
    exact ⟨rfl, fun ho => absurd ho (by decide)⟩
  | Attribute =>
    simp only [MyClass.call, attr_normal] at h ⊢
    split_ifs at h ⊢
    exact ⟨by simp [render], fun ho => absurd ho (by decide)⟩
  | PseudoClass =>
    simp only [MyClass.call, pseudoClass_normal] at h ⊢
    split_ifs at h ⊢
    exact ⟨rfl, fun ho => absurd ho (by decide)⟩
  | PseudoElement =>
    simp only [MyClass.call, pseudoElement_normal] at h ⊢
    split_ifs at h ⊢ with h1
    refine ⟨rfl, fun _ name hmem => h1 (List.any_eq_true.2 ⟨_, hmem, ?_⟩)⟩
    simp [render, startsColonColon]

/-- A chain that returns, started on a builder that holds the rendered forms of earlier
calls: the builder ends up holding the rendered forms of all the calls, and element, id and
pseudo-element still occur at most once each among them. -/
theorem chain_returns (cased : Char → Bool) (rest pre : List (Kind × Str))
    (hpre : ∀ k : Kind, k.once = true → pre.countP (fun p => p.1 = k) ≤ 1)
    (h : (MyClass.chain cased ⟨pre.map renderCall⟩ rest).thrown = none) :
    (MyClass.chain cased ⟨pre.map renderCall⟩ rest).self.ar = (pre ++ rest).map renderCall ∧
      ∀ k : Kind, k.once = true → (pre ++ rest).countP (fun p => p.1 = k) ≤ 1 := by
  induction rest generalizing pre with
  | nil => simpa [MyClass.chain] using hpre
  | cons c rest ih =>
    obtain ⟨k, arg⟩ := c
    rw [MyClass.chain] at h ⊢
    rcases hcall : MyClass.call cased ⟨pre.map renderCall⟩ k arg with ⟨next, _ | e⟩
    · have hret := call_returns cased ⟨pre.map renderCall⟩ k arg (by rw [hcall])
      rw [hcall] at hret
      have hnext : next = ⟨(pre ++ [(k, arg)]).map renderCall⟩ := by
        cases next
        simpa [renderCall] using hret.1
      subst hnext
      simp only [hcall] at h ⊢
      have hcount : ∀ j : Kind, j.once = true →
          (pre ++ [(k, arg)]).countP (fun p => p.1 = j) ≤ 1 := by
        intro j hj
        by_cases hkj : k = j
        · subst hkj
          have hzero : pre.countP (fun p => decide (p.1 = k)) = 0 := by
            rw [List.countP_eq_zero]
            intro p hp hpk
            have hpk2 : p.1 = k := by simpa using hpk
            refine hret.2 hj p.2 (List.mem_map.2 ⟨p, hp, ?_⟩)
            rw [← hpk2]
            rfl
          simp [List.countP_append, hzero]
        · have := hpre j hj
          simpa [List.countP_append, List.countP_cons, hkj] using this
      have := ih (pre ++ [(k, arg)]) hcount h
      simpa using this
    · simp [hcall] at h

/-! ## Calls that throw -/

/-- The five methods other than `element` test before they push: when one of them throws,
the builder is what it was before the call. -/
theorem failed_call_keeps_builder (cased : Char → Bool) (self : MyClass) (k : Kind)
    (arg : Str) (hk : k ≠ Kind.Element) (hthrown : (self.call cased k arg).thrown ≠ none) :
    (self.call cased k arg).self = self := by
  cases k with
  | Element => exact absurd rfl hk
  | Id =>
    simp only [MyClass.call, id_normal] at hthrown ⊢
    split_ifs at hthrown ⊢ <;> first | rfl | exact absurd rfl hthrown
  | Class =>
    simp only [MyClass.call, class_normal] at hthrown ⊢
    split_ifs at hthrown ⊢ <;> first | rfl | exact absurd rfl hthrown
  | Attribute =>
    simp only [MyClass.call, attr_normal] at hthrown ⊢
    split_ifs at hthrown ⊢ <;> first | rfl | exact absurd rfl hthrown
  | PseudoClass =>
    simp only [MyClass.call, pseudoClass_normal] at hthrown ⊢
    split_ifs at hthrown ⊢ <;> first | rfl | exact absurd rfl hthrown
  | PseudoElement =>
    simp only [MyClass.call, pseudoElement_normal] at hthrown ⊢
    split_ifs at hthrown ⊢ <;> first | rfl | exact absurd rfl hthrown

/-- Whatever `element` does, it has pushed its argument: `this.ar.push(arg)` is the first
statement of the `try` block. -/
theorem element_always_pushes (cased : Char → Bool) (self : MyClass) (arg : Str) :
    (self.element cased arg).self.ar = self.ar ++ [arg] := by
  rw [element_normal]

/-- The five methods other than `element` raise nothing but the two documented errors. -/
theorem thrown_documented (cased : Char → Bool) (self : MyClass) (k : Kind) (arg : Str)
    (hk : k ≠ Kind.Element) :
    (self.call cased k arg).thrown = none ∨
      (self.call cased k arg).thrown = some Err.doubleEr ∨
      (self.call cased k arg).thrown = some Err.orderEr := by
  cases k with
  | Element => exact absurd rfl hk
  | Id => simp only [MyClass.call, id_normal]; split_ifs <;> simp
  | Class => simp only [MyClass.call, class_normal]; split_ifs <;> simp
  | Attribute => simp only [MyClass.call, attr_normal]; split_ifs <;> simp
  | PseudoClass => simp only [MyClass.call, pseudoClass_normal]; split_ifs <;> simp
  | PseudoElement => simp only [MyClass.call, pseudoElement_normal]; split_ifs <;> simp

/-- On a builder without empty strings, `element` with a non-empty name raises nothing but
the two documented errors. -/
theorem element_thrown_documented (cased : Char → Bool) (self : MyClass) (arg : Str)
    (hfull : ∀ el ∈ self.ar, el ≠ []) (harg : arg ≠ []) :
    (self.element cased arg).thrown = none ∨
      (self.element cased arg).thrown = some Err.doubleEr ∨
      (self.element cased arg).thrown = some Err.orderEr := by
  have hall : (self.ar ++ [arg]).all (fun el => !el.isEmpty) = true := by
    simp only [List.all_eq_true, List.mem_append, List.mem_singleton]
    rintro el (h | rfl)
    · simpa using hfull el h
    · simpa using harg
  simp only [element_normal, hall, if_true]
  split_ifs <;> simp

/-! ## Serialisation -/

theorem foldl_append_eq (parts : List Str) (text : Str) :
    parts.foldl (fun text part => text ++ part) text = text ++ parts.flatten := by
  induction parts generalizing text with
  | nil => simp
  | cons part rest ih => simp [ih, List.append_assoc]

theorem join_eq_concatenation (ar : List Str) : join ar = concatenation ar := by
  simp [join, concatenation, foldl_append_eq]

/-! ## Order of the stored strings -/

theorem any_perm (p : Str → Bool) (l1 l2 : List Str) (h : l1.Perm l2) :
    l1.any p = l2.any p := by
  rw [Bool.eq_iff_iff]
  simp only [List.any_eq_true]
  exact ⟨fun ⟨x, hx, hp⟩ => ⟨x, h.mem_iff.1 hx, hp⟩, fun ⟨x, hx, hp⟩ => ⟨x, h.mem_iff.2 hx, hp⟩⟩

theorem all_perm (p : Str → Bool) (l1 l2 : List Str) (h : l1.Perm l2) :
    l1.all p = l2.all p := by
  rw [Bool.eq_iff_iff]
  simp only [List.all_eq_true]
  exact ⟨fun hall x hx => hall x (h.mem_iff.2 hx), fun hall x hx => hall x (h.mem_iff.1 hx)⟩

/-! ## Markers -/

/-- Every fragment other than an element starts with a marker. -/
theorem render_starts_with_marker (k : Kind) (name : Str) (hk : k ≠ Kind.Element) :
    ∃ c cs, render k name = c :: cs ∧ isMarker c = true := by
  cases k with
  | Element => exact absurd rfl hk
  | Id => exact ⟨'#', name, rfl, by decide⟩
  | Class => exact ⟨'.', name, rfl, by decide⟩
  | Attribute => exact ⟨'[', name ++ [']'], rfl, by decide⟩
  | PseudoClass => exact ⟨':', name, rfl, by decide⟩
  | PseudoElement => exact ⟨':', ':' :: name, rfl, by decide⟩

/-- When the markers have no case, fragments other than elements are not counted by the
`filter` of `element`. -/
theorem filter_headCased_markers (cased : Char → Bool)
    (hmarkers : ∀ c, isMarker c = true → cased c = false) (ar : List Str)
    (hfrag : ∀ el ∈ ar, ∃ k name, k ≠ Kind.Element ∧ el = render k name) :
    ar.filter (headCased cased) = [] := by
  rw [List.filter_eq_nil_iff]
  intro el hel
  obtain ⟨k, name, hk, rfl⟩ := hfrag el hel
  obtain ⟨c, cs, hr, hc⟩ := render_starts_with_marker k name hk
  simp [hr, headCased, hmarkers c hc]

/-! ## The two blocks of a method -/

/-- Every method is its `try` block followed by its `catch` block. -/
theorem call_eq_tryCatch (cased : Char → Bool) (self : MyClass) (k : Kind) (arg : Str) :
    self.call cased k arg = self.tryCatch cased k arg := by
  cases k with
  | Element =>
    simp only [MyClass.call, MyClass.element, MyClass.tryCatch, MyClass.tryBlock,
      MyClass.catchBlock]
    rcases h : filterCased cased (self.ar ++ [arg]) with e | kept
    · simp only [h]
    · by_cases h1 : kept.length > 1
      · simp only [h, h1, if_true]
      · by_cases h2 : (self.ar ++ [arg]).length > 1
        · simp only [h, h1, h2, if_true, if_false]
        · simp only [h, h1, h2, if_false]
  | Id =>
    simp only [MyClass.call, MyClass.id, MyClass.tryCatch, MyClass.tryBlock,
      MyClass.catchBlock]
    split_ifs <;> simp_all
  | Class =>
    simp only [MyClass.call, MyClass.class, MyClass.tryCatch, MyClass.tryBlock,
      MyClass.catchBlock]
    split_ifs <;> simp_all
  | Attribute =>
    simp only [MyClass.call, MyClass.attr, MyClass.tryCatch, MyClass.tryBlock,
      MyClass.catchBlock]
    split_ifs <;> simp_all
  | PseudoClass =>
    simp only [MyClass.call, MyClass.pseudoClass, MyClass.tryCatch, MyClass.tryBlock,
      MyClass.catchBlock]
    split_ifs <;> simp_all
  | PseudoElement =>
    simp only [MyClass.call, MyClass.pseudoElement, MyClass.tryCatch, MyClass.tryBlock,
      MyClass.catchBlock]
    split_ifs <;> simp_all

/-- In `element`, `id` and `attr` the `catch` block repeats the tests of the `try` block on
the same array, so it throws again whatever the `try` block threw. -/
theorem catchBlock_rethrows (cased : Char → Bool) (self : MyClass) (k : Kind) (arg : Str)
    (e : Err) (hk : k = Kind.Element ∨ k = Kind.Id ∨ k = Kind.Attribute)
    (htry : (self.tryBlock cased k arg).2 = .error e) :
    MyClass.catchBlock cased k (self.tryBlock cased k arg).1 e = some e := by
  rcases hk with rfl | rfl | rfl
  · simp only [MyClass.tryBlock, MyClass.catchBlock] at htry ⊢
    have hcases : (∃ e2, filterCased cased (self.ar ++ [arg]) = .error e2) ∨
        (∃ kept, filterCased cased (self.ar ++ [arg]) = .ok kept) := by
      cases filterCased cased (self.ar ++ [arg]) with
      | error e2 => exact Or.inl ⟨e2, rfl⟩
      | ok kept => exact Or.inr ⟨kept, rfl⟩
    rcases hcases with ⟨e2, h⟩ | ⟨kept, h⟩
    · simp only [h] at htry ⊢
      injection htry with h1
      rw [h1]
    · simp only [h] at htry ⊢
      by_cases h1 : kept.length > 1
      · simp only [h1, if_true] at htry ⊢
        simp only [h, h1, if_true]
      · by_cases h2 : (self.ar ++ [arg]).length > 1
        · simp only [h1, h2, if_true, if_false] at htry ⊢
          injection htry with h3
          simp only [h, h1, h2, if_true, if_false, h3]
        · simp only [h1, h2, if_false] at htry
          exact Except.noConfusion htry
  · simp only [MyClass.tryBlock, MyClass.catchBlock] at htry ⊢
    split_ifs at htry ⊢ <;> (injection htry with h3; rw [h3])
  · simp only [MyClass.tryBlock, MyClass.catchBlock] at htry ⊢
    split_ifs at htry ⊢
    injection htry with h3
    rw [h3]

/-! ## Fitting names: the outcome is read off the kinds -/

theorem cased_not_marker (cased : Char → Bool)
    (hmarkers : ∀ c, isMarker c = true → cased c = false) (c : Char) (hc : cased c = true) :
    c ≠ '#' ∧ c ≠ '.' ∧ c ≠ '[' ∧ c ≠ ':' := by
  apply isMarker_false
  cases h : isMarker c with
  | false => rfl
  | true => rw [hmarkers c h] at hc; exact Bool.noConfusion hc

theorem renderCall_ne_nil_fits (cased : Char → Bool) (call : Kind × Str)
    (h : nameFits cased call = true) : renderCall call ≠ [] := by
  obtain ⟨k, name⟩ := call
  cases k <;> cases name <;> simp_all [renderCall, render, nameFits, headCased]

theorem startsWith_hash_fits (cased : Char → Bool)
    (hmarkers : ∀ c, isMarker c = true → cased c = false) (call : Kind × Str)
    (h : nameFits cased call = true) :
    startsWith '#' (renderCall call) = decide (call.1 = Kind.Id) := by
  obtain ⟨k, name⟩ := call
  cases k <;> rcases name with _ | ⟨c, cs⟩ <;>
    simp_all [renderCall, render, nameFits, headCased, startsWith_cons, startsWith]
  exact (cased_not_marker cased hmarkers c h).1

theorem startsWith_dot_fits (cased : Char → Bool)
    (hmarkers : ∀ c, isMarker c = true → cased c = false) (call : Kind × Str)
    (h : nameFits cased call = true) :
    startsWith '.' (renderCall call) = decide (call.1 = Kind.Class) := by
  obtain ⟨k, name⟩ := call
  cases k <;> rcases name with _ | ⟨c, cs⟩ <;>
    simp_all [renderCall, render, nameFits, headCased, startsWith_cons, startsWith]
  exact (cased_not_marker cased hmarkers c h).2.1

theorem startsWith_bracket_fits (cased : Char → Bool)
    (hmarkers : ∀ c, isMarker c = true → cased c = false) (call : Kind × Str)
    (h : nameFits cased call = true) :
    startsWith '[' (renderCall call) = decide (call.1 = Kind.Attribute) := by
  obtain ⟨k, name⟩ := call
  cases k <;> rcases name with _ | ⟨c, cs⟩ <;>
    simp_all [renderCall, render, nameFits, headCased, startsWith_cons, startsWith]
  exact (cased_not_marker cased hmarkers c h).2.2.1

theorem startsWith_colon_fits (cased : Char → Bool)
    (hmarkers : ∀ c, isMarker c = true → cased c = false) (call : Kind × Str)
    (h : nameFits cased call = true) :
    startsWith ':' (renderCall call) =
      decide (call.1 = Kind.PseudoClass ∨ call.1 = Kind.PseudoElement) := by
  obtain ⟨k, name⟩ := call
  cases k <;> rcases name with _ | ⟨c, cs⟩ <;>
    simp_all [renderCall, render, nameFits, headCased, startsWith_cons, startsWith]
  exact (cased_not_marker cased hmarkers c h).2.2.2

theorem startsColonColon_fits (cased : Char → Bool)
    (hmarkers : ∀ c, isMarker c = true → cased c = false) (call : Kind × Str)
    (h : nameFits cased call = true) :
    startsColonColon (renderCall call) = decide (call.1 = Kind.PseudoElement) := by
  obtain ⟨k, name⟩ := call
  cases k <;> rcases name with _ | ⟨c, _ | ⟨d, cs⟩⟩ <;>
    simp_all [renderCall, render, nameFits, headCased, startsWith_cons, startsWith,
      startsColonColon_cons, startsColonColon_single]
  all_goals exact fun hc => absurd hc (cased_not_marker cased hmarkers _ h).2.2.2

/-- With the markers uncased and fitting names, the `filter` of `element` keeps exactly the
element fragments. -/
theorem headCased_render (cased : Char → Bool)
    (hmarkers : ∀ c, isMarker c = true → cased c = false) (call : Kind × Str)
    (hname : nameFits cased call = true) :
    headCased cased (renderCall call) = decide (call.1 = Kind.Element) := by
  obtain ⟨k, name⟩ := call
  by_cases hk : k = Kind.Element
  · subst hk
    simpa [renderCall, render, nameFits] using hname
  · obtain ⟨c, cs, hr, hc⟩ := render_starts_with_marker k name hk
    simp [renderCall, hr, headCased, hmarkers c hc, hk]

theorem any_kind_map (kinds : Kind → Bool) (pre : List (Kind × Str)) :
    pre.any (fun p => kinds p.1) = (pre.map fun p => p.1).any kinds := by
  induction pre with
  | nil => rfl
  | cons p rest ih => simp only [List.any_cons, List.map_cons, ih]

/-- A call with a fitting name, on a builder that holds the rendered forms of calls with
fitting names: the outcome is the one read off the kinds. -/
theorem call_thrown_validate (cased : Char → Bool)
    (hmarkers : ∀ c, isMarker c = true → cased c = false)
    (pre : List (Kind × Str)) (k : Kind) (arg : Str)
    (hpre : ∀ p ∈ pre, nameFits cased p = true)
    (harg : nameFits cased (k, arg) = true) :
    (MyClass.call cased ⟨pre.map renderCall⟩ k arg).thrown =
      validate (pre.map fun p => p.1) k := by
  have hash := (any_render (startsWith '#') (fun k => decide (k = Kind.Id)) pre
    (fun p hp => startsWith_hash_fits cased hmarkers p (hpre p hp))).trans
      (any_kind_map (fun k => decide (k = Kind.Id)) pre)
  have dot := (any_render (startsWith '.') (fun k => decide (k = Kind.Class)) pre
    (fun p hp => startsWith_dot_fits cased hmarkers p (hpre p hp))).trans
      (any_kind_map (fun k => decide (k = Kind.Class)) pre)
  have bracket := (any_render (startsWith '[') (fun k => decide (k = Kind.Attribute)) pre
    (fun p hp => startsWith_bracket_fits cased hmarkers p (hpre p hp))).trans
      (any_kind_map (fun k => decide (k = Kind.Attribute)) pre)
  have colon := (any_render (startsWith ':')
    (fun k => decide (k = Kind.PseudoClass ∨ k = Kind.PseudoElement)) pre
    (fun p hp => startsWith_colon_fits cased hmarkers p (hpre p hp))).trans
      (any_kind_map (fun k => decide (k = Kind.PseudoClass ∨ k = Kind.PseudoElement)) pre)
  have colon2 := (any_render startsColonColon (fun k => decide (k = Kind.PseudoElement)) pre
    (fun p hp => startsColonColon_fits cased hmarkers p (hpre p hp))).trans
      (any_kind_map (fun k => decide (k = Kind.PseudoElement)) pre)
  cases k with
  | Element =>
    have hargCased : headCased cased arg = true := by
      simpa [nameFits] using harg
    have hne : arg ≠ [] := by
      rintro rfl
      simp [headCased] at hargCased
    have hall : (pre.map renderCall ++ [arg]).all (fun el => !el.isEmpty) = true := by
      simp only [List.all_eq_true, List.mem_append, List.mem_singleton, List.mem_map]
      rintro el (⟨p, hp, rfl⟩ | rfl)
      · simpa using renderCall_ne_nil_fits cased p (hpre p hp)
      · simpa using hne
    have hfilter : (pre.map renderCall).filter (headCased cased) =
        (pre.filter fun p => decide (p.1 = Kind.Element)).map renderCall := by
      rw [List.filter_map]
      congr 1
      apply List.filter_congr
      intro p hp
      exact headCased_render cased hmarkers p (hpre p hp)
    have hcount : ((pre.map renderCall ++ [arg]).filter (headCased cased)).length > 1 ↔
        ((pre.map fun p => p.1).any fun j => decide (j = Kind.Element)) = true := by
      rw [List.filter_append, hfilter]
      simp only [List.filter, hargCased, List.length_append, List.length_map,
        List.length_cons, List.length_nil, List.any_eq_true, List.mem_map,
        decide_eq_true_eq]
      constructor
      · intro hgt
        have hpos : 0 < (pre.filter fun p => decide (p.1 = Kind.Element)).length := by omega
        obtain ⟨p, hp⟩ := List.exists_mem_of_length_pos hpos
        rw [List.mem_filter] at hp
        exact ⟨p.1, ⟨p, hp.1, rfl⟩, by simpa using hp.2⟩
      · rintro ⟨j, ⟨p, hp, rfl⟩, hj⟩
        have hmem : p ∈ pre.filter fun p => decide (p.1 = Kind.Element) :=
          List.mem_filter.2 ⟨hp, by simpa using hj⟩
        have hpos := List.length_pos_of_mem hmem
        omega
    have hlen : (pre.map renderCall ++ [arg]).length > 1 ↔
        (pre.map fun p => p.1).length > 0 := by
      simp only [List.length_append, List.length_map, List.length_cons, List.length_nil]
      omega
    simp only [MyClass.call, element_normal, validate, hall, if_true]
    by_cases h1 : ((pre.map fun p => p.1).any fun j => decide (j = Kind.Element)) = true
    · rw [if_pos (hcount.2 h1), if_pos h1]
    · rw [if_neg (fun h => h1 (hcount.1 h)), if_neg h1]
      by_cases h2 : (pre.map fun p => p.1).length > 0
      · rw [if_pos (hlen.2 h2), if_pos h2]
      · rw [if_neg (fun h => h2 (hlen.1 h)), if_neg h2]
  | Id =>
    simp only [MyClass.call, id_normal, validate, hash, dot, colon2]
    split_ifs <;> rfl
  | Class =>
    simp only [MyClass.call, class_normal, validate, bracket]
    split_ifs <;> rfl
  | Attribute =>
    simp only [MyClass.call, attr_normal, validate, colon]
    split_ifs <;> rfl
  | PseudoClass =>
    simp only [MyClass.call, pseudoClass_normal, validate, colon2]
    split_ifs <;> rfl
  | PseudoElement =>
    simp only [MyClass.call, pseudoElement_normal, validate, colon2]
    split_ifs <;> rfl

/-- A chain of calls with fitting names: the outcome is the one read off the kinds. -/
theorem chain_thrown_validate (cased : Char → Bool)
    (hmarkers : ∀ c, isMarker c = true → cased c = false)
    (rest pre : List (Kind × Str))
    (hnames : ∀ p ∈ pre ++ rest, nameFits cased p = true) :
    (MyClass.chain cased ⟨pre.map renderCall⟩ rest).thrown =
      validateChain (pre.map fun p => p.1) (rest.map fun p => p.1) := by
  induction rest generalizing pre with
  | nil => rfl
  | cons c rest ih =>
    obtain ⟨k, arg⟩ := c
    have hthrown := call_thrown_validate cased hmarkers pre k arg
      (fun p hp => hnames p (List.mem_append_left _ hp))
      (hnames (k, arg) (by simp))
    rw [MyClass.chain]
    simp only [List.map_cons, validateChain]
    rcases hcall : MyClass.call cased ⟨pre.map renderCall⟩ k arg with ⟨next, _ | e⟩
    · have hret := call_returns cased ⟨pre.map renderCall⟩ k arg (by rw [hcall])
      rw [hcall] at hret hthrown
      have hnext : next = ⟨(pre ++ [(k, arg)]).map renderCall⟩ := by
        cases next
        simpa [renderCall] using hret.1
      subst hnext
      simp only at hthrown
      rw [← hthrown]
      have := ih (pre ++ [(k, arg)]) (by simpa using hnames)
      simpa using this
    · rw [hcall] at hthrown
      simp only at hthrown
      rw [← hthrown]

/-- The ASCII case table gives no case to the markers. -/
theorem asciiCased_markers : ∀ c : Char, isMarker c = true → asciiCased c = false := by
  intro c hc
  simp only [isMarker, Bool.or_eq_true, beq_iff_eq] at hc
  rcases hc with ((rfl | rfl) | rfl) | rfl <;> decide

/-- The duplicate test of `element`: on a builder without empty strings that holds a string
starting with a cased character, `element` with a name that starts with a cased character
raises the duplicate error. -/
theorem element_duplicate_of_cased (cased : Char → Bool) (self : MyClass)
    (stored name : Str) (hmem : render Kind.Element stored ∈ self.ar)
    (hstored : headCased cased stored = true) (hname : headCased cased name = true)
    (hfull : ∀ el ∈ self.ar, el ≠ []) :
    (self.element cased name).thrown = some Err.doubleEr := by
  have hne : name ≠ [] := by
    rintro rfl; simp [headCased] at hname
  have hall : (self.ar ++ [name]).all (fun el => !el.isEmpty) = true := by
    simp only [List.all_eq_true, List.mem_append, List.mem_singleton]
    rintro el (h | rfl)
    · simpa using hfull el h
    · simpa using hne
  have hpos : 0 < (self.ar.filter (headCased cased)).length :=
    List.length_pos_of_mem (List.mem_filter.2 ⟨hmem, hstored⟩)
  have hlen : ((self.ar ++ [name]).filter (headCased cased)).length > 1 := by
    simp only [List.filter_append, List.length_append, List.filter, hname, List.length_cons,
      List.length_nil]
    omega
  simp only [element_normal, hall, hlen, if_true]

/-! ## Combination through references -/

/-- Reading through references yields the text that `combineStep` yields on the builders the
references denote. -/
theorem foldl_combineStep_ref (h : Heap) (x : MyClass) (v : List ArgRef)
    (hv : h.holds v = true) (acc : Str) :
    ∃ args : List Arg, v.map h.resolve = args.map some ∧
      v.foldl (Heap.combineStep (h ++ [x])) (some acc) = some (args.foldl combineStep acc) := by
  induction v generalizing acc with
  | nil => exact ⟨[], rfl, rfl⟩
  | cons el rest ih =>
    have hrest : h.holds rest = true := by
      simp only [Heap.holds, List.all_cons, Bool.and_eq_true] at hv
      exact hv.2
    cases el with
    | object ref =>
      have hlt : ref < h.length := by
        simp only [Heap.holds, List.all_cons, Bool.and_eq_true, decide_eq_true_eq] at hv
        exact hv.1
      have hget : (h ++ [x])[ref]? = some h[ref] := by
        rw [List.getElem?_append_left hlt, List.getElem?_eq_getElem hlt]
      obtain ⟨args, h1, h2⟩ := ih hrest (acc ++ join h[ref].ar)
      refine ⟨Arg.object h[ref] :: args, ?_, ?_⟩
      · simp [Heap.resolve, List.getElem?_eq_getElem hlt, h1]
      · simp only [List.foldl_cons, Heap.combineStep, hget, h2, combineStep]
    | string s =>
      obtain ⟨args, h1, h2⟩ := ih hrest (acc ++ (' ' :: (s ++ [' '])))
      refine ⟨Arg.string s :: args, ?_, ?_⟩
      · simp [Heap.resolve, h1]
      · simp only [List.foldl_cons, Heap.combineStep, h2, combineStep]

/-! ## Settled properties -/

/-- C1. A chain of fragment-adding calls started from a `cssSelectorBuilder` factory, with
kinds in non-decreasing rank order, with element, id and pseudoElement used at most once
each, and with names that start with a letter (attribute specs arbitrary), never throws, and
`stringify()` then returns the concatenation, in call order, of the rendered fragments. -/
theorem C1_ordered_chain_stringify (cased : Char → Bool) (first : Kind × Str)
    (rest : List (Kind × Str))
    (hrank : (first :: rest).Pairwise (fun a b => a.1.rank ≤ b.1.rank))
    (helement : (first :: rest).countP (fun c => c.1 = Kind.Element) ≤ 1)
    (hid : (first :: rest).countP (fun c => c.1 = Kind.Id) ≤ 1)
    (hpseudo : (first :: rest).countP (fun c => c.1 = Kind.PseudoElement) ≤ 1)
    (hnames : ∀ c ∈ first :: rest, c.1 ≠ Kind.Attribute → startsWithLetter c.2 = true) :
    (build cased first rest).thrown = none ∧
      (build cased first rest).self.stringify =
        join ((first :: rest).map fun c => render c.1 c.2) := by
  have h := chain_in_order cased (first :: rest) []
    (fun p hp => by
      have := hnames p (by simpa using hp)
      by_cases hk : p.1 = Kind.Attribute
      · simp [wellFormed, hk]
      · simp [wellFormed, startsWithLetter_startsPlain _ (this hk)])
    (by simpa using hrank)
    (fun k hk => by cases k <;> first | simpa using helement | simpa using hid
                                      | simpa using hpseudo | simp [Kind.once] at hk)
  rw [build_eq_chain]
  have h0 : MyClass.new = ⟨List.map renderCall []⟩ := rfl
  rw [h0, h]
  exact ⟨rfl, rfl⟩

/-- The documented chain `id('main').class('container').class('editable')` satisfies the
hypotheses of C1 and serialises to `#main.container.editable`. -/
theorem C1_ordered_chain_stringify_witness :
    (build asciiCased (Kind.Id, "main".toList)
        [(Kind.Class, "container".toList), (Kind.Class, "editable".toList)]).thrown = none ∧
      (build asciiCased (Kind.Id, "main".toList)
        [(Kind.Class, "container".toList), (Kind.Class, "editable".toList)]).self.stringify =
        "#main.container.editable".toList :=
  C1_ordered_chain_stringify asciiCased (Kind.Id, "main".toList)
    [(Kind.Class, "container".toList), (Kind.Class, "editable".toList)]
    (by decide) (by decide) (by decide) (by decide) (by decide)

/-- C2. The chain `cssSelectorBuilder.attr('href').id('x')` adds an Id fragment (rank 2) to a
builder whose highest rank is that of its Attribute fragment (rank 4) and which holds no Id
fragment. The call does not raise the order error: it returns and appends `#x`, so the
selector serialises to `[href]#x`. -/
theorem C2_id_after_attr_returns (cased : Char → Bool) :
    Kind.Id.rank < Kind.Attribute.rank ∧
      build cased (Kind.Attribute, "href".toList) [(Kind.Id, "x".toList)] =
        ⟨⟨["[href]".toList, "#x".toList]⟩, none⟩ ∧
      (build cased (Kind.Attribute, "href".toList) [(Kind.Id, "x".toList)]).self.stringify =
        "[href]#x".toList :=
  ⟨by decide, rfl, rfl⟩

/-- C3. On a builder that holds an Id fragment (resp. a PseudoElement fragment), whatever
else it holds, `id(name)` (resp. `pseudoElement(name)`) raises the duplicate error and
leaves the builder as it was. -/
theorem C3_second_id_or_pseudoElement_is_duplicate (cased : Char → Bool) (self : MyClass)
    (k : Kind) (stored name : Str) (hk : k = Kind.Id ∨ k = Kind.PseudoElement)
    (hmem : render k stored ∈ self.ar) :
    self.call cased k name = ⟨self, some Err.doubleEr⟩ := by
  rcases hk with rfl | rfl
  · have h : self.ar.any (startsWith '#') = true :=
      List.any_eq_true.2 ⟨_, hmem, by simp [render, startsWith]⟩
    simp only [MyClass.call, id_normal, h, if_true]
  · have h : self.ar.any startsColonColon = true :=
      List.any_eq_true.2 ⟨_, hmem, by simp [render, startsColonColon]⟩
    simp only [MyClass.call, pseudoElement_normal, h, if_true]

/-- C3 at `element('a').id('x').class('c')` followed by `id('y')`. -/
theorem C3_second_id_or_pseudoElement_is_duplicate_witness :
    MyClass.call asciiCased ⟨["a".toList, "#x".toList, ".c".toList]⟩ Kind.Id "y".toList =
      ⟨⟨["a".toList, "#x".toList, ".c".toList]⟩, some Err.doubleEr⟩ :=
  C3_second_id_or_pseudoElement_is_duplicate asciiCased
    ⟨["a".toList, "#x".toList, ".c".toList]⟩ Kind.Id "x".toList "y".toList
    (Or.inl rfl) (by decide)

/-- C4. The chain `cssSelectorBuilder.element('div').element('*')`: the first call returns the
builder `['div']`, which holds an Element fragment, and the second call, with the non-empty
name `*`, raises the order error, not the duplicate error. The `filter` of `element` counts
only stored strings whose first character has case, and `*` has none. -/
theorem C4_second_element_star_raises_order_error :
    build asciiCased (Kind.Element, "div".toList) [] = ⟨⟨["div".toList]⟩, none⟩ ∧
      render Kind.Element "div".toList ∈ (MyClass.mk ["div".toList]).ar ∧
      "*".toList ≠ [] ∧
      MyClass.element asciiCased ⟨["div".toList]⟩ "*".toList =
        ⟨⟨["div".toList, "*".toList]⟩, some Err.orderEr⟩ ∧
      build asciiCased (Kind.Element, "div".toList) [(Kind.Element, "*".toList)] =
        ⟨⟨["div".toList, "*".toList]⟩, some Err.orderEr⟩ := by
  decide

/-- C5. The chain `cssSelectorBuilder.element('div').element('span')`: the second call raises
the duplicate error, and the builder, which held `['div']` and serialised to `div` before
that call, holds `['div', 'span']` and serialises to `divspan` after it. -/
theorem C5_failed_element_call_appends :
    build asciiCased (Kind.Element, "div".toList) [] = ⟨⟨["div".toList]⟩, none⟩ ∧
      (MyClass.mk ["div".toList]).stringify = "div".toList ∧
      MyClass.element asciiCased ⟨["div".toList]⟩ "span".toList =
        ⟨⟨["div".toList, "span".toList]⟩, some Err.doubleEr⟩ ∧
      (MyClass.element asciiCased ⟨["div".toList]⟩ "span".toList).self.stringify =
        "divspan".toList := by
  decide

/-- C6. For an interleaved argument list `operand₁, token₁, operand₂, …, operandₙ` of
builders and token strings, `cssSelectorBuilder.combine(…).stringify()` is
`operand₁.stringify()` followed, for each further operand, by a space, the token, a space
and the operand's `stringify()`. -/
theorem C6_combine_joins_operands (first : MyClass) (rest : List (Str × MyClass)) :
    (cssSelectorBuilder.combine (interleaved first rest)).stringify =
      joinedByTokens first rest := by
  rw [stringify_combine, interleaved, List.foldl_cons, foldl_combineStep_interleavedTail]
  simp [combineStep, joinedByTokens, MyClass.stringify]

/-- C7. Nesting a combination on the right, nesting it on the left and the flat five-argument
call all serialise to `A t1 B t2 C`, each token between single spaces. -/
theorem C7_combine_associative (A B C : MyClass) (t1 t2 : Str) :
    (cssSelectorBuilder.combine [Arg.object A, Arg.string t1,
        Arg.object (cssSelectorBuilder.combine [Arg.object B, Arg.string t2, Arg.object C])]
      ).stringify =
        A.stringify ++ " ".toList ++ t1 ++ " ".toList ++ B.stringify ++ " ".toList ++ t2 ++
          " ".toList ++ C.stringify ∧
    (cssSelectorBuilder.combine [Arg.object
        (cssSelectorBuilder.combine [Arg.object A, Arg.string t1, Arg.object B]),
        Arg.string t2, Arg.object C]).stringify =
        A.stringify ++ " ".toList ++ t1 ++ " ".toList ++ B.stringify ++ " ".toList ++ t2 ++
          " ".toList ++ C.stringify ∧
    (cssSelectorBuilder.combine [Arg.object A, Arg.string t1, Arg.object B, Arg.string t2,
        Arg.object C]).stringify =
        A.stringify ++ " ".toList ++ t1 ++ " ".toList ++ B.stringify ++ " ".toList ++ t2 ++
          " ".toList ++ C.stringify := by
  refine ⟨?_, ?_, ?_⟩ <;>
    simp [cssSelectorBuilder.combine, MyClass.combine, MyClass.new, MyClass.stringify, join,
      combineStep, List.append_assoc]

/-- C8. The nested example of the documentation evaluates, without an exception, to
`div#main.container.draggable + table#data ~ tr:nth-of-type(even)   td:nth-of-type(even)`,
with three spaces for the descendant combinator. -/
theorem C8_documented_example (cased : Char → Bool) :
    documentedExample cased = Except.ok
      "div#main.container.draggable + table#data ~ tr:nth-of-type(even)   td:nth-of-type(even)".toList := by
  unfold documentedExample
  rw [build_in_order cased _ _ (by decide) (by decide)
      (by intro k hk; cases k <;> first | decide | exact absurd hk (by decide)),
    build_in_order cased _ _ (by decide) (by decide) (by intro k _; cases k <;> decide),
    build_in_order cased _ _ (by decide) (by decide) (by intro k _; cases k <;> decide),
    build_in_order cased _ _ (by decide) (by decide) (by intro k _; cases k <;> decide)]
  rfl

/-- C9. `cssSelectorBuilder.combine`, called in any object store with operands that are
builders of the store, returns a reference to a newly allocated builder and leaves every
builder that existed before the call, the operands among them, with the same stored
sequence and the same `stringify()` result; the new builder is the one `combine` computes
from the operands as they were before the call. -/
theorem C9_combine_keeps_operands (h : Heap) (v : List ArgRef) (hv : h.holds v = true) :
    ∃ (h2 : Heap) (args : List Arg),
      h.cssCombine v = some (h2, h.length) ∧
      (∀ ref, ref < h.length → h2[ref]? = h[ref]?) ∧
      (∀ ref, ref < h.length →
        (h2[ref]?).map MyClass.stringify = (h[ref]?).map MyClass.stringify) ∧
      v.map h.resolve = args.map some ∧
      h2[h.length]? = some (cssSelectorBuilder.combine args) := by
  obtain ⟨args, h1, h2⟩ := foldl_combineStep_ref h MyClass.new v hv []
  have hnew : (h ++ [MyClass.new])[h.length]? = some MyClass.new :=
    List.getElem?_concat_length h MyClass.new
  have hkeep : ∀ ref, ref < h.length →
      ((h ++ [MyClass.new]).set h.length
        ⟨MyClass.new.ar ++ [args.foldl combineStep []]⟩)[ref]? = h[ref]? := by
    intro ref hlt
    rw [List.getElem?_set_ne (Nat.ne_of_gt hlt), List.getElem?_append_left hlt]
  refine ⟨(h ++ [MyClass.new]).set h.length ⟨MyClass.new.ar ++ [args.foldl combineStep []]⟩,
    args, ?_, hkeep, ?_, h1, ?_⟩
  · simp only [Heap.cssCombine, Heap.combine, h2, hnew]
  · intro ref hlt
    rw [hkeep ref hlt]
  · rw [List.getElem?_set_self (by simp)]
    rfl

/-- C9 in the store that holds `div#main` and `table#data`, for
`combine(div#main, '+', table#data)`. -/
theorem C9_combine_keeps_operands_witness :
    ∃ (h2 : Heap) (args : List Arg),
      Heap.cssCombine [⟨["div".toList, "#main".toList]⟩, ⟨["table".toList, "#data".toList]⟩]
        [ArgRef.object 0, ArgRef.string "+".toList, ArgRef.object 1] = some (h2, 2) ∧
      (∀ ref, ref < 2 → h2[ref]? =
        ([⟨["div".toList, "#main".toList]⟩, ⟨["table".toList, "#data".toList]⟩] : Heap)[ref]?) ∧
      (∀ ref, ref < 2 → (h2[ref]?).map MyClass.stringify =
        (([⟨["div".toList, "#main".toList]⟩, ⟨["table".toList, "#data".toList]⟩] : Heap)[ref]?).map
          MyClass.stringify) ∧
      [ArgRef.object 0, ArgRef.string "+".toList, ArgRef.object 1].map
        (Heap.resolve [⟨["div".toList, "#main".toList]⟩, ⟨["table".toList, "#data".toList]⟩]) =
        args.map some ∧
      h2[2]? = some (cssSelectorBuilder.combine args) :=
  C9_combine_keeps_operands
    [⟨["div".toList, "#main".toList]⟩, ⟨["table".toList, "#data".toList]⟩]
    [ArgRef.object 0, ArgRef.string "+".toList, ArgRef.object 1]
    (by decide)

/-- C10. When a chain of fragment-adding calls started from a `cssSelectorBuilder` factory
returns, the builder holds one rendered fragment per call, in call order, and among these
fragments at most one is an Element, at most one an Id and at most one a PseudoElement
fragment. This holds for all names, well formed or not. -/
theorem C10_once_kinds_unique (cased : Char → Bool) (first : Kind × Str)
    (rest : List (Kind × Str)) (hreturns : (build cased first rest).thrown = none) :
    (build cased first rest).self.ar = (first :: rest).map (fun c => render c.1 c.2) ∧
      (first :: rest).countP (fun c => c.1 = Kind.Element) ≤ 1 ∧
      (first :: rest).countP (fun c => c.1 = Kind.Id) ≤ 1 ∧
      (first :: rest).countP (fun c => c.1 = Kind.PseudoElement) ≤ 1 := by
  rw [build_eq_chain] at hreturns ⊢
  have h := chain_returns cased (first :: rest) [] (fun _ _ => Nat.zero_le _) hreturns
  exact ⟨h.1, h.2 Kind.Element rfl, h.2 Kind.Id rfl, h.2 Kind.PseudoElement rfl⟩

/-- C10 at `element('div').id('main').class('container').class('draggable')`. -/
theorem C10_once_kinds_unique_witness :
    (build asciiCased (Kind.Element, "div".toList)
        [(Kind.Id, "main".toList), (Kind.Class, "container".toList),
          (Kind.Class, "draggable".toList)]).self.ar =
        ["div".toList, "#main".toList, ".container".toList, ".draggable".toList] ∧
      [(Kind.Element, "div".toList), (Kind.Id, "main".toList),
        (Kind.Class, "container".toList), (Kind.Class, "draggable".toList)].countP
          (fun c => c.1 = Kind.Element) ≤ 1 ∧
      [(Kind.Element, "div".toList), (Kind.Id, "main".toList),
        (Kind.Class, "container".toList), (Kind.Class, "draggable".toList)].countP
          (fun c => c.1 = Kind.Id) ≤ 1 ∧
      [(Kind.Element, "div".toList), (Kind.Id, "main".toList),
        (Kind.Class, "container".toList), (Kind.Class, "draggable".toList)].countP
          (fun c => c.1 = Kind.PseudoElement) ≤ 1 :=
  C10_once_kinds_unique asciiCased (Kind.Element, "div".toList)
    [(Kind.Id, "main".toList), (Kind.Class, "container".toList),
      (Kind.Class, "draggable".toList)] (by decide)

/-- C11. The call `cssSelectorBuilder.element('')` raises neither the duplicate error nor the
order error: the empty string has no `el[0]`, so the `filter` callback raises a `TypeError`
in the `try` block and again in the `catch` block. The empty string stays in the builder. -/
theorem C11_element_empty_name_raises_typeError (cased : Char → Bool) :
    cssSelectorBuilder.element cased "".toList = ⟨⟨["".toList]⟩, some Err.typeError⟩ ∧
      Err.typeError ≠ Err.doubleEr ∧ Err.typeError ≠ Err.orderEr :=
  ⟨rfl, by decide, by decide⟩

/-- C12. `stringify()` on a builder of an object store returns the in-order concatenation of
the stored strings and leaves the store, the builder included, as it was; a second call
right after the first returns the same string and again changes nothing. -/
theorem C12_stringify_pure_idempotent (h : Heap) (this : Nat) (self : MyClass)
    (hself : h[this]? = some self) :
    ∃ (h1 h2 : Heap) (s1 s2 : Str),
      h.stringify this = some (h1, s1) ∧ h1.stringify this = some (h2, s2) ∧
      h1 = h ∧ h2 = h ∧ h2[this]? = some self ∧
      s1 = s2 ∧ s1 = concatenation self.ar ∧ s1 = self.stringify := by
  refine ⟨h, h, join self.ar, join self.ar, ?_, ?_, rfl, rfl, hself, rfl,
    join_eq_concatenation self.ar, rfl⟩ <;> simp only [Heap.stringify, hself]

/-- C12 in the store that holds the builder `['#main', '.container', '.editable']`. -/
theorem C12_stringify_pure_idempotent_witness :
    ∃ (h1 h2 : Heap) (s1 s2 : Str),
      Heap.stringify [⟨["#main".toList, ".container".toList, ".editable".toList]⟩] 0 =
        some (h1, s1) ∧
      h1.stringify 0 = some (h2, s2) ∧
      h1 = [⟨["#main".toList, ".container".toList, ".editable".toList]⟩] ∧
      h2 = [⟨["#main".toList, ".container".toList, ".editable".toList]⟩] ∧
      h2[0]? = some ⟨["#main".toList, ".container".toList, ".editable".toList]⟩ ∧
      s1 = s2 ∧
      s1 = concatenation ["#main".toList, ".container".toList, ".editable".toList] ∧
      s1 = (MyClass.mk ["#main".toList, ".container".toList, ".editable".toList]).stringify :=
  C12_stringify_pure_idempotent
    [⟨["#main".toList, ".container".toList, ".editable".toList]⟩] 0
    ⟨["#main".toList, ".container".toList, ".editable".toList]⟩ rfl

/-- C13. The chains `cssSelectorBuilder.attr('href').id('x')` and
`cssSelectorBuilder.pseudoClass('hover').id('x')` call `id` on a builder that holds no Id
fragment and holds an Attribute (resp. a PseudoClass) fragment. Neither call raises the order
error: both return, and the selectors serialise to `[href]#x` and `:hover#x`. -/
theorem C13_id_after_attr_or_pseudoClass_returns (cased : Char → Bool) :
    build cased (Kind.Attribute, "href".toList) [(Kind.Id, "x".toList)] =
        ⟨⟨["[href]".toList, "#x".toList]⟩, none⟩ ∧
      build cased (Kind.PseudoClass, "hover".toList) [(Kind.Id, "x".toList)] =
        ⟨⟨[":hover".toList, "#x".toList]⟩, none⟩ ∧
      (build cased (Kind.PseudoClass, "hover".toList) [(Kind.Id, "x".toList)]).self.stringify =
        ":hover#x".toList :=
  ⟨rfl, rfl, rfl⟩

/-- C14. The chains `cssSelectorBuilder.pseudoClass('hover').class('a')` and
`cssSelectorBuilder.pseudoElement('before').class('a')` call `class` on a builder that holds
a PseudoClass (resp. a PseudoElement) fragment. Neither call raises the order error: both
return, and the selectors serialise to `:hover.a` and `::before.a`. -/
theorem C14_class_after_pseudo_returns (cased : Char → Bool) :
    build cased (Kind.PseudoClass, "hover".toList) [(Kind.Class, "a".toList)] =
        ⟨⟨[":hover".toList, ".a".toList]⟩, none⟩ ∧
      build cased (Kind.PseudoElement, "before".toList) [(Kind.Class, "a".toList)] =
        ⟨⟨["::before".toList, ".a".toList]⟩, none⟩ ∧
      (build cased (Kind.PseudoClass, "hover".toList) [(Kind.Class, "a".toList)]).self.stringify =
        ":hover.a".toList ∧
      (build cased (Kind.PseudoElement, "before".toList)
        [(Kind.Class, "a".toList)]).self.stringify = "::before.a".toList :=
  ⟨rfl, rfl, rfl, rfl⟩

/-- C18. On two builders whose stored sequences are permutations of each other, every
fragment-adding operation with every argument has the same outcome: both calls return, or
both raise the same error. -/
theorem C18_outcome_invariant_under_permutation (cased : Char → Bool) (a b : MyClass)
    (k : Kind) (arg : Str) (hperm : a.ar.Perm b.ar) :
    (a.call cased k arg).thrown = (b.call cased k arg).thrown := by
  have hany := fun p => any_perm p a.ar b.ar hperm
  cases k with
  | Element =>
    have hpush := hperm.append_right [arg]
    simp only [MyClass.call, element_normal, all_perm _ _ _ hpush,
      (hpush.filter (headCased cased)).length_eq, hpush.length_eq]
  | Id =>
    simp only [MyClass.call, id_normal, hany]
    split_ifs <;> rfl
  | Class =>
    simp only [MyClass.call, class_normal, hany]
    split_ifs <;> rfl
  | Attribute =>
    simp only [MyClass.call, attr_normal, hany]
    split_ifs <;> rfl
  | PseudoClass =>
    simp only [MyClass.call, pseudoClass_normal, hany]
    split_ifs <;> rfl
  | PseudoElement =>
    simp only [MyClass.call, pseudoElement_normal, hany]
    split_ifs <;> rfl

/-- C18 at the builders `['div', '.a', '::after']` and `['::after', 'div', '.a']`, for
`id('x')`. -/
theorem C18_outcome_invariant_under_permutation_witness :
    (MyClass.call asciiCased ⟨["div".toList, ".a".toList, "::after".toList]⟩ Kind.Id
        "x".toList).thrown =
      (MyClass.call asciiCased ⟨["::after".toList, "div".toList, ".a".toList]⟩ Kind.Id
        "x".toList).thrown :=
  C18_outcome_invariant_under_permutation asciiCased
    ⟨["div".toList, ".a".toList, "::after".toList]⟩
    ⟨["::after".toList, "div".toList, ".a".toList]⟩ Kind.Id "x".toList (by decide)

/-- C15. On a builder built by a chain of calls that returned, with names that start with a
letter (attribute specs arbitrary): `attr(spec)` raises the order error exactly when the
builder holds a PseudoClass or a PseudoElement fragment, and otherwise returns with
`[spec]` appended as the last fragment; `pseudoClass(name)` raises the order error exactly
when the builder holds a PseudoElement fragment, and otherwise returns with `:name`
appended as the last fragment. -/
theorem C15_attr_pseudoClass_order (cased : Char → Bool) (first : Kind × Str)
    (rest : List (Kind × Str))
    (hnames : ∀ c ∈ first :: rest, c.1 ≠ Kind.Attribute → startsWithLetter c.2 = true)
    (hreturns : (build cased first rest).thrown = none) (arg : Str) :
    (((build cased first rest).self.attr arg).thrown = some Err.orderEr ↔
        ∃ c ∈ first :: rest, c.1 = Kind.PseudoClass ∨ c.1 = Kind.PseudoElement) ∧
      ((¬ ∃ c ∈ first :: rest, c.1 = Kind.PseudoClass ∨ c.1 = Kind.PseudoElement) →
        (build cased first rest).self.attr arg =
          ⟨⟨(build cased first rest).self.ar ++ [render Kind.Attribute arg]⟩, none⟩) ∧
      (((build cased first rest).self.pseudoClass arg).thrown = some Err.orderEr ↔
        ∃ c ∈ first :: rest, c.1 = Kind.PseudoElement) ∧
      ((¬ ∃ c ∈ first :: rest, c.1 = Kind.PseudoElement) →
        (build cased first rest).self.pseudoClass arg =
          ⟨⟨(build cased first rest).self.ar ++ [render Kind.PseudoClass arg]⟩, none⟩) := by
  have hwf : ∀ p ∈ first :: rest, wellFormed p = true := fun p hp => by
    by_cases hk : p.1 = Kind.Attribute
    · simp [wellFormed, hk]
    · simp [wellFormed, startsWithLetter_startsPlain _ (hnames p hp hk)]
  rw [build_eq_chain] at hreturns ⊢
  have har : (MyClass.chain cased MyClass.new (first :: rest)).self.ar =
      List.map renderCall (first :: rest) :=
    (chain_returns cased (first :: rest) [] (fun _ _ => Nat.zero_le _) hreturns).1
  generalize (MyClass.chain cased MyClass.new (first :: rest)).self = b at har ⊢
  have colon : (List.map renderCall (first :: rest)).any (startsWith ':') =
      (first :: rest).any fun p => decide (p.1 = Kind.PseudoClass ∨ p.1 = Kind.PseudoElement) :=
    any_render (startsWith ':')
      (fun k => decide (k = Kind.PseudoClass ∨ k = Kind.PseudoElement)) (first :: rest)
      (fun p hp => startsWith_colon_render p (hwf p hp))
  have colon2 : (List.map renderCall (first :: rest)).any startsColonColon =
      (first :: rest).any fun p => decide (p.1 = Kind.PseudoElement) :=
    any_render startsColonColon (fun k => decide (k = Kind.PseudoElement))
      (first :: rest) (fun p hp => startsColonColon_render p (hwf p hp))
  have e1 : ((first :: rest).any fun p => decide (p.1 = Kind.PseudoClass ∨
      p.1 = Kind.PseudoElement)) = true ↔
      ∃ c ∈ first :: rest, c.1 = Kind.PseudoClass ∨ c.1 = Kind.PseudoElement := by
    simp only [List.any_eq_true, decide_eq_true_eq]
  have e2 : ((first :: rest).any fun p => decide (p.1 = Kind.PseudoElement)) = true ↔
      ∃ c ∈ first :: rest, c.1 = Kind.PseudoElement := by
    simp only [List.any_eq_true, decide_eq_true_eq]
  rw [← e1, ← e2, ← colon, ← colon2, ← har]
  simp only [attr_normal, pseudoClass_normal]
  refine ⟨?_, ?_, ?_, ?_⟩
  · split_ifs with h <;> simp [h]
  · intro h; rw [if_neg h]; rfl
  · split_ifs with h <;> simp [h]
  · intro h; rw [if_neg h]; rfl

/-- C15 at `element('a').attr('href')`, which holds no pseudo-class and no pseudo-element. -/
theorem C15_attr_pseudoClass_order_witness :
    (((build asciiCased (Kind.Element, "a".toList)
          [(Kind.Attribute, "href".toList)]).self.attr "title".toList).thrown =
          some Err.orderEr ↔
        ∃ c ∈ [(Kind.Element, "a".toList), (Kind.Attribute, "href".toList)],
          c.1 = Kind.PseudoClass ∨ c.1 = Kind.PseudoElement) ∧
      ((¬ ∃ c ∈ [(Kind.Element, "a".toList), (Kind.Attribute, "href".toList)],
          c.1 = Kind.PseudoClass ∨ c.1 = Kind.PseudoElement) →
        (build asciiCased (Kind.Element, "a".toList)
          [(Kind.Attribute, "href".toList)]).self.attr "title".toList =
          ⟨⟨(build asciiCased (Kind.Element, "a".toList)
            [(Kind.Attribute, "href".toList)]).self.ar ++
              [render Kind.Attribute "title".toList]⟩, none⟩) ∧
      (((build asciiCased (Kind.Element, "a".toList)
          [(Kind.Attribute, "href".toList)]).self.pseudoClass "title".toList).thrown =
          some Err.orderEr ↔
        ∃ c ∈ [(Kind.Element, "a".toList), (Kind.Attribute, "href".toList)],
          c.1 = Kind.PseudoElement) ∧
      ((¬ ∃ c ∈ [(Kind.Element, "a".toList), (Kind.Attribute, "href".toList)],
          c.1 = Kind.PseudoElement) →
        (build asciiCased (Kind.Element, "a".toList)
          [(Kind.Attribute, "href".toList)]).self.pseudoClass "title".toList =
          ⟨⟨(build asciiCased (Kind.Element, "a".toList)
            [(Kind.Attribute, "href".toList)]).self.ar ++
              [render Kind.PseudoClass "title".toList]⟩, none⟩) :=
  C15_attr_pseudoClass_order asciiCased (Kind.Element, "a".toList)
    [(Kind.Attribute, "href".toList)] (by decide) (by decide) "title".toList

/-- C16. Given that the four markers `#`, `.`, `[`, `:` have no case: on a builder that holds
at least one fragment, all of kind Id, Class, Attribute, PseudoClass or PseudoElement,
`element(name)` with a non-empty name raises the order error. And on any builder, with any
argument, `element` returns only if the builder held nothing. -/
theorem C16_element_after_fragment_is_order_error (cased : Char → Bool)
    (hmarkers : ∀ c, isMarker c = true → cased c = false) (self : MyClass) (name : Str)
    (hfrag : ∀ el ∈ self.ar, ∃ k stored, k ≠ Kind.Element ∧ el = render k stored)
    (hsome : self.ar ≠ []) (hname : name ≠ []) :
    (self.element cased name).thrown = some Err.orderEr ∧
      ∀ (other : MyClass) (arg : Str),
        (other.element cased arg).thrown = none → other.ar = [] := by
  constructor
  · have hall : (self.ar ++ [name]).all (fun el => !el.isEmpty) = true := by
      simp only [List.all_eq_true, List.mem_append, List.mem_singleton]
      rintro el (h | rfl)
      · obtain ⟨k, stored, hk, rfl⟩ := hfrag el h
        obtain ⟨c, cs, hr, _⟩ := render_starts_with_marker k stored hk
        simp [hr]
      · simpa using hname
    have hcount : ¬ ((self.ar ++ [name]).filter (headCased cased)).length > 1 := by
      rw [List.filter_append, filter_headCased_markers cased hmarkers self.ar hfrag]
      simp only [List.nil_append, List.filter]
      split <;> simp
    have hlen : (self.ar ++ [name]).length > 1 := by
      have := List.length_pos.2 hsome
      simp only [List.length_append, List.length_cons, List.length_nil]
      omega
    simp only [element_normal, hall, hcount, hlen, if_true, if_false]
  · intro other arg hret
    simp only [element_normal] at hret
    have hlen : ¬ (other.ar ++ [arg]).length > 1 := by
      intro hgt
      split_ifs at hret
    simp only [List.length_append, List.length_cons, List.length_nil] at hlen
    exact List.length_eq_zero.1 (by omega)

/-- C16 at `id('main')` followed by `element('div')`. -/
theorem C16_element_after_fragment_is_order_error_witness :
    (MyClass.element asciiCased ⟨["#main".toList]⟩ "div".toList).thrown = some Err.orderEr ∧
      ∀ (other : MyClass) (arg : Str),
        (other.element asciiCased arg).thrown = none → other.ar = [] :=
  C16_element_after_fragment_is_order_error asciiCased
    asciiCased_markers ⟨["#main".toList]⟩ "div".toList
    (by intro el hel
        simp only [List.mem_singleton] at hel
        exact ⟨Kind.Id, "main".toList, by decide, hel⟩)
    (by decide) (by decide)

/-- C17, as stated, fails: no case table, builder state and argument make `element`, `id` or
`attr` swallow an error. Whenever the `try` block of one of them throws the duplicate or the
order error, the `catch` block does not run to its end. -/
theorem C17_counterexample :
    ¬ ∃ (cased : Char → Bool) (self : MyClass) (k : Kind) (arg : Str),
      (k = Kind.Element ∨ k = Kind.Id ∨ k = Kind.Attribute) ∧ self.swallows cased k arg := by
  rintro ⟨cased, self, k, arg, hk, e, htry, _, hcatch, _⟩
  rw [catchBlock_rethrows cased self k arg e hk htry] at hcatch
  exact Option.noConfusion hcatch

/-- C17, amended. For every builder state and argument, when the `try` block of `element`,
`id` or `attr` throws an error, the `catch` block throws that error again and the call raises
it: the `return this` after the `catch` block is not reached. -/
theorem C17_catch_block_rethrows (cased : Char → Bool) (self : MyClass) (k : Kind)
    (arg : Str) (e : Err) (hk : k = Kind.Element ∨ k = Kind.Id ∨ k = Kind.Attribute)
    (htry : (self.tryBlock cased k arg).2 = .error e) :
    MyClass.catchBlock cased k (self.tryBlock cased k arg).1 e = some e ∧
      (self.call cased k arg).thrown = some e := by
  have hcatch := catchBlock_rethrows cased self k arg e hk htry
  refine ⟨hcatch, ?_⟩
  rw [call_eq_tryCatch, MyClass.tryCatch]
  rcases hblock : self.tryBlock cased k arg with ⟨ar, _ | _⟩
  · rw [hblock] at htry hcatch
    simp only at htry hcatch ⊢
    injection htry with h3
    rw [h3, hcatch]
  · rw [hblock] at htry
    exact Except.noConfusion htry

/-- C17, amended, at `id('x')` followed by `id('y')`: the `try` block throws the duplicate
error, and so do the `catch` block and the call. -/
theorem C17_catch_block_rethrows_witness :
    MyClass.catchBlock asciiCased Kind.Id
        (MyClass.tryBlock asciiCased ⟨["#x".toList]⟩ Kind.Id "y".toList).1 Err.doubleEr =
        some Err.doubleEr ∧
      (MyClass.call asciiCased ⟨["#x".toList]⟩ Kind.Id "y".toList).thrown =
        some Err.doubleEr :=
  C17_catch_block_rethrows asciiCased ⟨["#x".toList]⟩ Kind.Id "y".toList Err.doubleEr
    (Or.inr (Or.inl rfl)) rfl


/-- C19, as stated, fails. `element('#x').id('y')` and `element('a').id('y')` use the same
operations with non-empty names, yet the first fails at its second call with the duplicate
error (`#x` is taken for an Id fragment) and the second succeeds. `element('a').element('*')`
and `element('a').element('b')` both fail at their second call, the first with the order
error and the second with the duplicate error. `pseudoClass(':x').pseudoClass('y')` fails at
its second call with the order error (`::x` is taken for a PseudoElement fragment), and
`pseudoClass('x').pseudoClass('y')` succeeds. -/
theorem C19_counterexample :
    (build asciiCased (Kind.Element, "#x".toList) [(Kind.Id, "y".toList)]).thrown =
        some Err.doubleEr ∧
      (build asciiCased (Kind.Element, "a".toList) [(Kind.Id, "y".toList)]).thrown = none ∧
      (build asciiCased (Kind.Element, "a".toList) [(Kind.Element, "*".toList)]).thrown =
        some Err.orderEr ∧
      (build asciiCased (Kind.Element, "a".toList) [(Kind.Element, "b".toList)]).thrown =
        some Err.doubleEr ∧
      (build asciiCased (Kind.PseudoClass, ":x".toList)
        [(Kind.PseudoClass, "y".toList)]).thrown = some Err.orderEr ∧
      (build asciiCased (Kind.PseudoClass, "x".toList)
        [(Kind.PseudoClass, "y".toList)]).thrown = none := by
  decide

/-- C19, amended. Given that the four markers `#`, `.`, `[`, `:` have no case: two chains of
calls that use the same operations in the same order, in which every element name starts with
a cased character and no pseudo-class name starts with `:` (the arguments of `id`, `class`,
`attr` and `pseudoElement` arbitrary, the empty string included), have the same outcome after
every number of calls; so both succeed entirely, or both fail at the same call with the same
error. -/
theorem C19_outcome_depends_on_kinds (cased : Char → Bool)
    (hmarkers : ∀ c, isMarker c = true → cased c = false)
    (first1 first2 : Kind × Str) (rest1 rest2 : List (Kind × Str))
    (hkinds : (first1 :: rest1).map (fun c => c.1) = (first2 :: rest2).map (fun c => c.1))
    (hnames1 : ∀ c ∈ first1 :: rest1, nameFits cased c = true)
    (hnames2 : ∀ c ∈ first2 :: rest2, nameFits cased c = true)
    (n : Nat) :
    (build cased first1 (rest1.take n)).thrown = (build cased first2 (rest2.take n)).thrown := by
  have hsub : ∀ (first : Kind × Str) (rest : List (Kind × Str)),
      ∀ c ∈ first :: rest.take n, c ∈ first :: rest := by
    intro first rest c hc
    rcases List.mem_cons.1 hc with rfl | h
    · exact List.mem_cons_self _ _
    · exact List.mem_cons_of_mem _ (List.mem_of_mem_take h)
  have h1 := chain_thrown_validate cased hmarkers (first1 :: rest1.take n) []
    (fun c hc => hnames1 c (hsub first1 rest1 c (by simpa using hc)))
  have h2 := chain_thrown_validate cased hmarkers (first2 :: rest2.take n) []
    (fun c hc => hnames2 c (hsub first2 rest2 c (by simpa using hc)))
  have hk : (first1 :: rest1.take n).map (fun c => c.1) =
      (first2 :: rest2.take n).map (fun c => c.1) := by
    simp only [List.map_cons, List.cons.injEq] at hkinds
    simp only [List.map_cons, List.map_take, hkinds.1, hkinds.2]
  rw [build_eq_chain, build_eq_chain]
  have h0 : MyClass.new = ⟨List.map renderCall []⟩ := rfl
  rw [h0, h1, h2, hk]

/-- C19, amended, at `element('div').id('#a').id('b')` and `element('p').id('').id(':y')`
after three calls: both have failed, with the duplicate error. -/
theorem C19_outcome_depends_on_kinds_witness :
    (build asciiCased (Kind.Element, "div".toList)
        ([(Kind.Id, "#a".toList), (Kind.Id, "b".toList)].take 2)).thrown =
      (build asciiCased (Kind.Element, "p".toList)
        ([(Kind.Id, "".toList), (Kind.Id, ":y".toList)].take 2)).thrown :=
  C19_outcome_depends_on_kinds asciiCased asciiCased_markers
    (Kind.Element, "div".toList) (Kind.Element, "p".toList)
    [(Kind.Id, "#a".toList), (Kind.Id, "b".toList)]
    [(Kind.Id, "".toList), (Kind.Id, ":y".toList)]
    (by decide) (by decide) (by decide) 2
